import Mathlib

/-!
# CoreSampler: key mapping, velocity lookup and note dispatch

A shallow embedding of `Sources/CDunneAudioKit/DunneCore/Sampler/CoreSampler.cpp`.

Conventions of the embedding.

* `float` values are elements of an arbitrary linearly ordered field `F`
  (comparisons are the order of `F`, no NaN, no rounding of arithmetic).  The C library
  functions `pow` / `powf` are parameters of the functions that call them.  The
  conversion `float(sampleCount - 1)` of a frame count rounds to 24 significant bits
  (`floatOfInt`); note numbers and velocities are small and convert exactly.
* C arrays (`keyMap[128]`, `voice[64]`, `tuningTable[128]`) are functions on
  indices; every loop runs over exactly the index range of the source, and only
  indices below the declared size are meaningful.
* Pointers to regions are the region values themselves; lists keep the order of
  `std::list` and `push_back` appends at the end.
* `unsigned` parameters are natural numbers; the conversion between `unsigned` and
  `int` that the source performs is explicit (`castInt`).
-/

/-- Number of voices: `#define MAX_POLYPHONY 64`. -/
def MAX_POLYPHONY : Nat := 64

/-- Number of MIDI note numbers: `#define MIDI_NOTENUMBERS 128`. -/
def MIDI_NOTENUMBERS : Nat := 128

/-- The conversion `(int)u` of a 32-bit `unsigned` value. -/
def castInt (u : Nat) : Int :=
  if u % 2 ^ 32 < 2 ^ 31 then ((u % 2 ^ 32 : Nat) : Int) else ((u % 2 ^ 32 : Nat) : Int) - 2 ^ 32

/-- The conversion `float(i)` of a 32-bit `int` to a single-precision `float`; the result is
an integer, given here as such.  Values of magnitude up to `2^24` are exact; a larger value is
rounded to 24 significant bits, to the nearest such number and to the even one on a tie:
`e` is the number of low bits that are dropped, `q` the kept bits, `r` the dropped ones. -/
def floatOfInt (i : Int) : Int :=
  if i.natAbs ≤ 2 ^ 24 then i
  else
    let e := ((List.range 8).filter (fun k => decide (2 ^ (24 + k) ≤ i.natAbs))).length
    let q := i.natAbs / 2 ^ e
    let r := i.natAbs % 2 ^ e
    let m := if 2 * r > 2 ^ e ∨ (2 * r = 2 ^ e ∧ q % 2 = 1) then q + 1 else q
    i.sign * ((m * 2 ^ e : Nat) : Int)

/-- The conversion `NOTE_HZ(midiNoteNumber)` of the source,
`440.0f * pow(2.0f, ((midiNoteNumber) - 69.0f)/12.0f)`, over the C library `pow`. -/
def NOTE_HZ {F : Type} [LinearOrderedField F] (pow : F → F → F) (midiNoteNumber : Int) : F :=
  440 * pow 2 (((midiNoteNumber : F) - 69) / 12)

namespace DunneCore

/-- The fields of `KeyMappedSampleBuffer` (a loaded sample region) that `CoreSampler.cpp`
reads and writes, and the members that `init` and `setData` fill: the sample rate, the
channel and frame counts, and the planar sample data `samples`. -/
structure KeyMappedSampleBuffer (F : Type) where
  noteNumber : Int
  noteDetune : Int
  noteFrequency : F
  minimumNoteNumber : Int
  maximumNoteNumber : Int
  minimumVelocity : Int
  maximumVelocity : Int
  gain : F
  pan : F
  isLooping : Bool
  startPoint : F
  endPoint : F
  loopStartPoint : F
  loopEndPoint : F
  sampleRate : F
  channelCount : Int
  sampleCount : Int
  samples : List F
deriving DecidableEq

/-- Modelled from the spec: the calls that the core makes on one voice of the per-voice DSP
engine (`SamplerVoice`, whose implementation is not among the sources).  The interface is the
one of the spec: `start`, `restartNewNote`, `release(loopThroughRelease)`, `stop()`,
`setGain`, `setPan`, and for rendering `prepToGetSamples` and `getSamples` (of whose
arguments the frame count is kept). -/
inductive VoiceCall (F : Type) where
  | start (note : Nat) (sampleRate frequency volume : F) (pBuf : KeyMappedSampleBuffer F)
  | restartNewNote (note : Nat) (sampleRate frequency volume : F) (pBuf : KeyMappedSampleBuffer F)
  | release (loopThruRelease : Bool)
  | stop
  | setGain (gain : F)
  | setPan (pan : F)
  | prepToGetSamples (sampleCount : Nat)
  | getSamples (sampleCount : Nat)
deriving DecidableEq

/-- Modelled from the spec: one playback slot (`SamplerVoice`, implementation not among the
sources).  The core sees the field `noteNumber` (negative = idle); the DSP state behind it is
represented by the history `calls` of the calls received so far, oldest first. -/
structure SamplerVoice (F : Type) where
  noteNumber : Int
  calls : List (VoiceCall F)
deriving DecidableEq

namespace SamplerVoice

variable {F : Type}

/-- Modelled from the spec: `start(note, sampleRate, frequency, normalizedVelocity, region)`
assigns the note to the voice (idle → started). -/
def start (v : SamplerVoice F) (note : Nat) (sampleRate frequency volume : F)
    (pBuf : KeyMappedSampleBuffer F) : SamplerVoice F :=
  { noteNumber := castInt note,
    calls := v.calls ++ [VoiceCall.start note sampleRate frequency volume pBuf] }

/-- Modelled from the spec: `restartNewNote(...)` (legato) retunes and re-triggers the voice
in place with the new note. -/
def restartNewNote (v : SamplerVoice F) (note : Nat) (sampleRate frequency volume : F)
    (pBuf : KeyMappedSampleBuffer F) : SamplerVoice F :=
  { noteNumber := castInt note,
    calls := v.calls ++ [VoiceCall.restartNewNote note sampleRate frequency volume pBuf] }

/-- Modelled from the spec: `release(loopThroughRelease)` begins the decay; the voice keeps
sounding its note (sounding → released). -/
def release (v : SamplerVoice F) (loopThruRelease : Bool) : SamplerVoice F :=
  { v with calls := v.calls ++ [VoiceCall.release loopThruRelease] }

/-- Modelled from the spec: `stop()` is the immediate kill; the voice becomes idle
(negative note number). -/
def stop (v : SamplerVoice F) : SamplerVoice F :=
  { noteNumber := -1, calls := v.calls ++ [VoiceCall.stop] }

/-- Modelled from the spec: `setGain(float)`. -/
def setGain (v : SamplerVoice F) (gain : F) : SamplerVoice F :=
  { v with calls := v.calls ++ [VoiceCall.setGain gain] }

/-- Modelled from the spec: `setPan(float)`. -/
def setPan (v : SamplerVoice F) (pan : F) : SamplerVoice F :=
  { v with calls := v.calls ++ [VoiceCall.setPan pan] }

/-- Number of `stop` and `release` calls in the history of a voice. -/
def stopReleaseCount (v : SamplerVoice F) : Nat :=
  (v.calls.filter (fun c =>
    match c with
    | VoiceCall.stop => true
    | VoiceCall.release _ => true
    | _ => false)).length

end SamplerVoice

/-- Modelled from the spec: the Sustain Logic collaborator (`SustainPedalLogic`, implementation
not among the sources).  It tracks, per note, whether the key is physically down (`keyDown`)
and whether the note is sustained by the pedal (`sustained`), and whether the pedal is down. -/
structure SustainPedalLogic where
  keyDown : Nat → Bool
  sustained : Nat → Bool
  pedalIsDown : Bool

namespace SustainPedalLogic

/-- Modelled from the spec: `isAnyKeyDown() → bool`. -/
def isAnyKeyDown (p : SustainPedalLogic) : Bool :=
  (List.range MIDI_NOTENUMBERS).any p.keyDown

/-- Modelled from the spec: `keyDownAction(note)` records the key as physically down. -/
def keyDownAction (p : SustainPedalLogic) (noteNumber : Nat) : SustainPedalLogic :=
  { p with keyDown := Function.update p.keyDown noteNumber true }

/-- Modelled from the spec: `keyUpAction(note) → shouldActuallyStop`.  The key is no longer
physically down; the key-up takes effect unless the pedal is down, in which case the note
becomes sustained by the pedal. -/
def keyUpAction (p : SustainPedalLogic) (noteNumber : Nat) : SustainPedalLogic × Bool :=
  if p.pedalIsDown then
    ({ p with keyDown := Function.update p.keyDown noteNumber false,
              sustained := Function.update p.sustained noteNumber true }, false)
  else
    ({ p with keyDown := Function.update p.keyDown noteNumber false }, true)

/-- Modelled from the spec: `isNoteSustaining(note) → bool`: the note is sustained by the
pedal and its key is no longer physically held. -/
def isNoteSustaining (p : SustainPedalLogic) (noteNumber : Nat) : Bool :=
  p.sustained noteNumber && !p.keyDown noteNumber

/-- Modelled from the spec: `pedalDown()`. -/
def pedalDown (p : SustainPedalLogic) : SustainPedalLogic :=
  { p with pedalIsDown := true }

/-- Modelled from the spec: `pedalUp()`: the pedal no longer sustains any note. -/
def pedalUp (p : SustainPedalLogic) : SustainPedalLogic :=
  { p with pedalIsDown := false, sustained := fun _ => false }

end SustainPedalLogic

end DunneCore

open DunneCore

/-- The state of `CoreSampler` that note dispatch and key mapping read and write: the members
of `InternalData` (`sampleBufferList`, `keyMap`, `voice`, `pedalLogic`, `tuningTable`) and the
members of the class itself that these methods use. -/
structure CoreSampler (F : Type) where
  sampleBufferList : List (KeyMappedSampleBuffer F)
  keyMap : Nat → List (KeyMappedSampleBuffer F)
  voice : Nat → SamplerVoice F
  pedalLogic : SustainPedalLogic
  tuningTable : Nat → F
  currentSampleRate : F
  isKeyMapValid : Bool
  isMonophonic : Bool
  loopThruRelease : Bool
  stoppingAllVoices : Bool
  lastPlayedNoteNumber : Nat
  overallGain : F
  overallPan : F

namespace CoreSampler

variable {F : Type} [LinearOrderedField F]

/-- The loop `for (i = 0; i < MIDI_NOTENUMBERS; i++) keyMap[i].clear();`. -/
def clearKeyMap (keyMap : Nat → List (KeyMappedSampleBuffer F)) :
    Nat → List (KeyMappedSampleBuffer F) :=
  (List.range MIDI_NOTENUMBERS).foldl (fun km i => Function.update km i []) keyMap

/-- The method `CoreSampler::lookupSamples`: scan `keyMap[noteNumber]` and push every region
whose velocity range contains `(int)velocity`. -/
def lookupSamples (s : CoreSampler F) (noteNumber velocity : Nat) :
    List (KeyMappedSampleBuffer F) :=
  (s.keyMap noteNumber).foldl
    (fun matchingSamples pBuf =>
      if castInt velocity ≥ pBuf.minimumVelocity ∧ castInt velocity ≤ pBuf.maximumVelocity then
        matchingSamples ++ [pBuf]
      else matchingSamples)
    []

/-- The acceptance test of the specification for one region and a velocity: the region has no
velocity restriction (a negative bound), or its velocity layer contains the velocity. -/
def acceptsVelocity (r : KeyMappedSampleBuffer F) (v : Nat) : Prop :=
  r.minimumVelocity < 0 ∨ r.maximumVelocity < 0
    ∨ (r.minimumVelocity ≤ (v : Int) ∧ (v : Int) ≤ r.maximumVelocity)

instance acceptsVelocityDecidable (r : KeyMappedSampleBuffer F) (v : Nat) :
    Decidable (acceptsVelocity r v) := by
  unfold acceptsVelocity
  infer_instance

/-- The method `CoreSampler::setNoteFrequency`. -/
def setNoteFrequency (s : CoreSampler F) (noteNumber : Nat) (noteFrequency : F) : CoreSampler F :=
  { s with tuningTable := Function.update s.tuningTable noteNumber noteFrequency }

/-- The distance `fabsf(NOTE_HZ(pBuf->noteNumber) - noteFreq)` of `buildSimpleKeyMap`. -/
def pitchDistance (pow : F → F → F) (pBuf : KeyMappedSampleBuffer F) (noteFreq : F) : F :=
  |NOTE_HZ pow pBuf.noteNumber - noteFreq|

/-- First scan of `buildSimpleKeyMap` for one note: the running minimum, started at
`1000000.0f`. -/
def scanMinDistance (pow : F → F → F) (sampleBufferList : List (KeyMappedSampleBuffer F))
    (noteFreq : F) : F :=
  sampleBufferList.foldl
    (fun minDistance pBuf =>
      if pitchDistance pow pBuf noteFreq < minDistance then pitchDistance pow pBuf noteFreq
      else minDistance)
    1000000

/-- The method `CoreSampler::buildSimpleKeyMap`. -/
def buildSimpleKeyMap (pow : F → F → F) (s : CoreSampler F) : CoreSampler F :=
  let cleared := clearKeyMap s.keyMap
  let keyMap := (List.range MIDI_NOTENUMBERS).foldl
    (fun km nn =>
      let noteFreq := s.tuningTable nn
      let minDistance := scanMinDistance pow s.sampleBufferList noteFreq
      s.sampleBufferList.foldl
        (fun km pBuf =>
          if pitchDistance pow pBuf noteFreq = minDistance then
            Function.update km nn (km nn ++ [pBuf])
          else km)
        km)
    cleared
  { s with keyMap := keyMap, isKeyMapValid := true }

/-- The method `CoreSampler::buildKeyMap`. -/
def buildKeyMap (pow : F → F → F) (s : CoreSampler F) : CoreSampler F :=
  let cleared := clearKeyMap s.keyMap
  let keyMap := (List.range MIDI_NOTENUMBERS).foldl
    (fun km nn =>
      let noteFreq := s.tuningTable nn
      s.sampleBufferList.foldl
        (fun km pBuf =>
          let minFreq := NOTE_HZ pow pBuf.minimumNoteNumber
          let maxFreq := NOTE_HZ pow pBuf.maximumNoteNumber
          if noteFreq ≥ minFreq ∧ noteFreq ≤ maxFreq then
            Function.update km nn (km nn ++ [pBuf])
          else km)
        km)
    cleared
  { s with keyMap := keyMap, isKeyMapValid := true }

/-- The voice after a note-on has been delivered to it in `play`: `start` (or, for the
monophonic legato case, `restartNewNote`) followed by `setGain` and `setPan`. -/
def triggerVoice (powf : F → F → F) (s : CoreSampler F) (restart : Bool)
    (noteNumber velocity : Nat) (pBuf : KeyMappedSampleBuffer F) (pVoice : SamplerVoice F) :
    SamplerVoice F :=
  let noteFrequency := s.tuningTable noteNumber
  let detuneFactor := powf 2 ((pBuf.noteDetune : F) / 1200)
  let detunedFrequency := noteFrequency * detuneFactor
  let started :=
    if restart then
      pVoice.restartNewNote noteNumber s.currentSampleRate detunedFrequency
        ((velocity : F) / 127) pBuf
    else
      pVoice.start noteNumber s.currentSampleRate detunedFrequency ((velocity : F) / 127) pBuf
  (started.setGain pBuf.gain).setPan pBuf.pan

/-- The inner loop of polyphonic `play`, from index `i` with `remaining` indices to go:
the first voice with `noteNumber < 0` is rewritten by `act`, and the loop breaks. -/
def startFirstIdle (act : SamplerVoice F → SamplerVoice F) :
    (remaining : Nat) → (i : Nat) → (Nat → SamplerVoice F) → (Nat → SamplerVoice F)
  | 0, _, voice => voice
  | remaining + 1, i, voice =>
    if (voice i).noteNumber < 0 then Function.update voice i (act (voice i))
    else startFirstIdle act remaining (i + 1) voice

/-- The method `CoreSampler::play`. -/
def play (powf : F → F → F) (s : CoreSampler F) (noteNumber velocity : Nat)
    (_anotherKeyWasDown : Bool) : CoreSampler F :=
  if s.stoppingAllVoices then s
  else
    let samples := lookupSamples s noteNumber velocity
    if s.isMonophonic then
      match samples with
      | [] => s
      | pBuf :: _ =>
        let pVoice := s.voice 0
        let restart : Bool := decide (pVoice.noteNumber ≥ 0)
        { s with
          voice := Function.update s.voice 0
            (triggerVoice powf s restart noteNumber velocity pBuf pVoice),
          lastPlayedNoteNumber := noteNumber }
    else
      { s with
        voice := samples.foldl
          (fun voice pBuf =>
            startFirstIdle (triggerVoice powf s false noteNumber velocity pBuf)
              MAX_POLYPHONY 0 voice)
          s.voice }

/-- What `stop` does to a voice it has selected: `stop()` when immediate, else
`release(loopThruRelease)`. -/
def silence (s : CoreSampler F) (immediate : Bool) (pVoice : SamplerVoice F) : SamplerVoice F :=
  if immediate then pVoice.stop else pVoice.release s.loopThruRelease

/-- The method `CoreSampler::stop`.  The test `pVoice->noteNumber == noteNumber` compares an
`int` with an `unsigned` as 32-bit patterns, that is, the voice's note with `(int)noteNumber`. -/
def stop (s : CoreSampler F) (noteNumber : Nat) (immediate : Bool) : CoreSampler F :=
  if s.isMonophonic then
    let pVoice := s.voice 0
    if pVoice.noteNumber = castInt noteNumber then
      { s with voice := Function.update s.voice 0 (silence s immediate pVoice) }
    else s
  else
    { s with
      voice := (List.range MAX_POLYPHONY).foldl
        (fun voice i =>
          if (voice i).noteNumber = castInt noteNumber then
            Function.update voice i (silence s immediate (voice i))
          else voice)
        s.voice }

/-- The method `CoreSampler::playNote`. -/
def playNote (powf : F → F → F) (s : CoreSampler F) (noteNumber velocity : Nat) : CoreSampler F :=
  let anotherKeyWasDown := s.pedalLogic.isAnyKeyDown
  let s1 := { s with pedalLogic := s.pedalLogic.keyDownAction noteNumber }
  play powf s1 noteNumber velocity anotherKeyWasDown

/-- The method `CoreSampler::stopNote`; `immediate || keyUpAction(noteNumber)` does not call
`keyUpAction` when `immediate` is set. -/
def stopNote (s : CoreSampler F) (noteNumber : Nat) (immediate : Bool) : CoreSampler F :=
  if immediate then stop s noteNumber immediate
  else
    let s1 := { s with pedalLogic := (s.pedalLogic.keyUpAction noteNumber).1 }
    if (s.pedalLogic.keyUpAction noteNumber).2 then stop s1 noteNumber immediate else s1

/-- The method `CoreSampler::sustainPedal`. -/
def sustainPedal (s : CoreSampler F) (down : Bool) : CoreSampler F :=
  if down then { s with pedalLogic := s.pedalLogic.pedalDown }
  else
    let s1 := (List.range MIDI_NOTENUMBERS).foldl
      (fun st nn => if st.pedalLogic.isNoteSustaining nn then stop st nn false else st)
      s
    { s1 with pedalLogic := s1.pedalLogic.pedalUp }

/-- The voice slots that `stop` examines: slot 0 in monophonic mode, every slot below
`MAX_POLYPHONY` in polyphonic mode. -/
def scansSlot (s : CoreSampler F) (i : Nat) : Bool :=
  if s.isMonophonic then decide (i = 0) else decide (i < MAX_POLYPHONY)

/-- Number of occupied voice slots (`noteNumber >= 0`) among the `MAX_POLYPHONY` slots. -/
def occupiedVoices (s : CoreSampler F) : Nat :=
  ((List.range MAX_POLYPHONY).filter (fun i => decide (0 ≤ (s.voice i).noteNumber))).length

end CoreSampler

/-! ## Sample loading, unloading and rendering -/

/-- The members of `SampleDescriptor` that `loadSampleData` reads (the declaration is not
among the sources). -/
structure SampleDescriptor (F : Type) where
  noteNumber : Int
  noteDetune : Int
  noteFrequency : F
  minimumNoteNumber : Int
  maximumNoteNumber : Int
  minimumVelocity : Int
  maximumVelocity : Int
  isLooping : Bool
  loopStartPoint : F
  loopEndPoint : F
  startPoint : F
  endPoint : F
  gain : F
  pan : F

/-- The members of `SampleDataDescriptor` that `loadSampleData` reads (the declaration is
not among the sources); `data` is the memory behind the pointer `float *data`. -/
structure SampleDataDescriptor (F : Type) where
  sampleDescriptor : SampleDescriptor F
  sampleRate : F
  isInterleaved : Bool
  channelCount : Int
  sampleCount : Int
  data : Nat → F

namespace DunneCore

/-- Modelled from the spec: what `new KeyMappedSampleBuffer()` followed by `init(...)`
(implementation not among the sources) leaves in the members that `loadSampleData` assigns
only under a condition, and in the freshly allocated sample memory.  The spec does not fix
these values; they are parameters. -/
structure FreshBuffer (F : Type) where
  startPoint : F
  endPoint : F
  loopStartPoint : F
  loopEndPoint : F
  samples : Nat → F

/-- Modelled from the spec: the sample memory after `init(sampleRate, channelCount,
sampleCount)`, one contiguous buffer of `channelCount * sampleCount` samples. -/
def allocateSamples {F : Type} (fresh : FreshBuffer F) (channelCount sampleCount : Int) :
    List F :=
  (List.range (channelCount * sampleCount).toNat).map fresh.samples

/-- Modelled from the spec: `setData(index, value)` stores one sample of the planar buffer;
an index outside the allocated buffer stores nothing. -/
def setData {F : Type} (samples : List F) (index : Nat) (value : F) : List F :=
  samples.set index value

/-- Modelled from the spec: the per-voice DSP engine behind `prepToGetSamples` and
`getSamples` (implementation not among the sources), as a function of the history of the
voice: `finished v` is the answer of `prepToGetSamples` (the envelope has fully decayed),
and `samples v k` is the pair (left, right) that `getSamples` adds to the output at frame
`k`. -/
structure VoiceEngine (F : Type) where
  finished : SamplerVoice F → Bool
  samples : SamplerVoice F → Nat → F × F

namespace SamplerVoice

variable {F : Type}

/-- Modelled from the spec: `prepToGetSamples(frameCount, ...) → finished`, the per-block
preparation of a voice; the answer is `VoiceEngine.finished`. -/
def prepToGetSamples (v : SamplerVoice F) (sampleCount : Nat) : SamplerVoice F :=
  { v with calls := v.calls ++ [VoiceCall.prepToGetSamples sampleCount] }

/-- Modelled from the spec: `getSamples(frameCount, leftOut, rightOut)` (additive mix); the
samples added are `VoiceEngine.samples`. -/
def getSamples (v : SamplerVoice F) (sampleCount : Nat) : SamplerVoice F :=
  { v with calls := v.calls ++ [VoiceCall.getSamples sampleCount] }

/-- Number of `getSamples` calls in the history of a voice. -/
def getSamplesCount (v : SamplerVoice F) : Nat :=
  (v.calls.filter (fun c =>
    match c with
    | VoiceCall.getSamples _ => true
    | _ => false)).length

end SamplerVoice

end DunneCore

/-- The sampler and the two output buffers during and after a render pass. -/
structure RenderPass (F : Type) where
  sampler : CoreSampler F
  pOutLeft : Nat → F
  pOutRight : Nat → F

namespace CoreSampler

variable {F : Type} [LinearOrderedField F]

/-- The method `CoreSampler::unloadAllSamples` (the `delete` of every region frees memory
and changes no member). -/
def unloadAllSamples (s : CoreSampler F) : CoreSampler F :=
  { s with isKeyMapValid := false, sampleBufferList := [], keyMap := clearKeyMap s.keyMap }

/-- The de-interleaving loop of `loadSampleData` (`sdd.isInterleaved`): frame `i` is read
from the advancing pointer `pData` into index `i`, and for more than one channel the next
value into index `sampleCount + i`.  The state is the buffer and the pointer offset. -/
def copyInterleaved (sdd : SampleDataDescriptor F) (samples : List F) : List F × Nat :=
  (List.range sdd.sampleCount.toNat).foldl
    (fun (st : List F × Nat) i =>
      let first := setData st.1 i (sdd.data st.2)
      if sdd.channelCount > 1 then
        (setData first (sdd.sampleCount + (i : Int)).toNat (sdd.data (st.2 + 1)), st.2 + 2)
      else (first, st.2 + 1))
    (samples, 0)

/-- The copy loop of `loadSampleData` for planar data: index `i` receives the `i`-th value
behind `pData`, for `i` below `channelCount * sampleCount`. -/
def copyPlanar (sdd : SampleDataDescriptor F) (samples : List F) : List F × Nat :=
  (List.range (sdd.channelCount * sdd.sampleCount).toNat).foldl
    (fun (st : List F × Nat) i => (setData st.1 i (sdd.data st.2), st.2 + 1))
    (samples, 0)

/-- The loop end point of the descriptor after the repair of `loadSampleData`: a value of
exactly 0 becomes `float(sampleCount - 1)`.  The source writes it back into the caller's
descriptor. -/
def repairedLoopEndPoint (sdd : SampleDataDescriptor F) : F :=
  if sdd.sampleDescriptor.loopEndPoint = 0 then ((floatOfInt (sdd.sampleCount - 1) : Int) : F)
  else sdd.sampleDescriptor.loopEndPoint

/-- Resolution of one loop point in `loadSampleData`: a value above 1 is a sample index, any
other value is a fraction of `endPoint`. -/
def resolveLoopPoint (endPoint loopPoint : F) : F :=
  if loopPoint > 1 then loopPoint else endPoint * loopPoint

/-- The region that `loadSampleData` builds from a descriptor, member by member in the
order of the source: key and velocity range, gain and pan; `init` and the copy of the
sample data; native note; start and end point when the descriptor gives a positive one;
and for a looping region the resolved loop points, the start raised to `startPoint` and
the end lowered to `endPoint`. -/
def loadedBuffer (fresh : FreshBuffer F) (sdd : SampleDataDescriptor F) :
    KeyMappedSampleBuffer F :=
  let d := sdd.sampleDescriptor
  let allocated := allocateSamples fresh sdd.channelCount sdd.sampleCount
  let samples :=
    if sdd.isInterleaved then (copyInterleaved sdd allocated).1
    else (copyPlanar sdd allocated).1
  let loopEndPoint := repairedLoopEndPoint sdd
  let startPoint := if d.startPoint > 0 then d.startPoint else fresh.startPoint
  let endPoint := if d.endPoint > 0 then d.endPoint else fresh.endPoint
  let loopStartResolved := resolveLoopPoint endPoint d.loopStartPoint
  let loopEndResolved := resolveLoopPoint endPoint loopEndPoint
  { noteNumber := d.noteNumber, noteDetune := d.noteDetune, noteFrequency := d.noteFrequency,
    minimumNoteNumber := d.minimumNoteNumber, maximumNoteNumber := d.maximumNoteNumber,
    minimumVelocity := d.minimumVelocity, maximumVelocity := d.maximumVelocity,
    gain := d.gain, pan := d.pan, isLooping := d.isLooping,
    startPoint := startPoint, endPoint := endPoint,
    loopStartPoint :=
      if d.isLooping then
        (if loopStartResolved < startPoint then startPoint else loopStartResolved)
      else fresh.loopStartPoint,
    loopEndPoint :=
      if d.isLooping then
        (if loopEndResolved > endPoint then endPoint else loopEndResolved)
      else fresh.loopEndPoint,
    sampleRate := sdd.sampleRate, channelCount := sdd.channelCount,
    sampleCount := sdd.sampleCount, samples := samples }

/-- The method `CoreSampler::loadSampleData`: the region is appended to the repository. -/
def loadSampleData (fresh : FreshBuffer F) (s : CoreSampler F) (sdd : SampleDataDescriptor F) :
    CoreSampler F :=
  { s with sampleBufferList := s.sampleBufferList ++ [loadedBuffer fresh sdd] }

/-- The condition of the wait loop of `stopAllVoices`: some voice has `noteNumber >= 0`. -/
def noteStillSounding (s : CoreSampler F) : Bool :=
  (List.range MAX_POLYPHONY).any (fun i => decide ((s.voice i).noteNumber ≥ 0))

/-- The method `CoreSampler::stopAllVoices` up to its wait loop: the gate is set.  The wait
loop that follows writes no member; it ends when `noteStillSounding` is false, which only
`render`, running in the audio context, can bring about. -/
def stopAllVoices (s : CoreSampler F) : CoreSampler F :=
  { s with stoppingAllVoices := true }

/-- The method `CoreSampler::restartVoices`. -/
def restartVoices (s : CoreSampler F) : CoreSampler F :=
  { s with stoppingAllVoices := false }

/-- The factor `leftPan` of `render`. -/
def leftPan (overallPan : F) : F := if overallPan ≤ 0 then 1 else 1 - overallPan

/-- The factor `rightPan` of `render`. -/
def rightPan (overallPan : F) : F := if overallPan ≥ 0 then 1 else 1 + overallPan

/-- The factor `overallGainLinear` of `render`: `powf(10.0f, overallGain / 20.0f)`. -/
def overallGainLinear (powf : F → F → F) (overallGain : F) : F := powf 10 (overallGain / 20)

/-- The body of the voice loop of `render` for slot `i`: an active voice is prepared; if the
preparation reports finished, `stopNote(pVoice->noteNumber, true)` is called, otherwise the
voice adds its samples to both output buffers. -/
def renderVoice (engine : VoiceEngine F) (sampleCount : Nat) (st : RenderPass F) (i : Nat) :
    RenderPass F :=
  let pVoice := st.sampler.voice i
  if pVoice.noteNumber ≥ 0 then
    let shouldStop := engine.finished pVoice
    let prepared : CoreSampler F :=
      { st.sampler with
        voice := Function.update st.sampler.voice i (pVoice.prepToGetSamples sampleCount) }
    if shouldStop then
      { st with sampler := stopNote prepared (prepared.voice i).noteNumber.toNat true }
    else
      { sampler :=
          { prepared with
            voice := Function.update prepared.voice i ((prepared.voice i).getSamples sampleCount) },
        pOutLeft := fun k =>
          if k < sampleCount then st.pOutLeft k + (engine.samples (prepared.voice i) k).1
          else st.pOutLeft k,
        pOutRight := fun k =>
          if k < sampleCount then st.pOutRight k + (engine.samples (prepared.voice i) k).2
          else st.pOutRight k }
  else st

/-- The method `CoreSampler::render` up to the end of the voice loop: both buffers are
cleared over `sampleCount` frames and every slot is processed in index order.  (The global
LFO value and the DSP parameters handed to `prepToGetSamples` feed the voice engine only and
are not part of the record.) -/
def renderVoices (engine : VoiceEngine F) (s : CoreSampler F) (sampleCount : Nat)
    (outLeft outRight : Nat → F) : RenderPass F :=
  (List.range MAX_POLYPHONY).foldl (renderVoice engine sampleCount)
    { sampler := s,
      pOutLeft := fun k => if k < sampleCount then 0 else outLeft k,
      pOutRight := fun k => if k < sampleCount then 0 else outRight k }

/-- The method `CoreSampler::render`: the voice loop, then overall gain and pan on every
frame. -/
def render (powf : F → F → F) (engine : VoiceEngine F) (s : CoreSampler F)
    (_channelCount sampleCount : Nat) (outLeft outRight : Nat → F) : RenderPass F :=
  let mixed := renderVoices engine s sampleCount outLeft outRight
  let gain := overallGainLinear powf mixed.sampler.overallGain
  let left := leftPan mixed.sampler.overallPan
  let right := rightPan mixed.sampler.overallPan
  { sampler := mixed.sampler,
    pOutLeft := fun k => if k < sampleCount then mixed.pOutLeft k * gain * left
      else mixed.pOutLeft k,
    pOutRight := fun k => if k < sampleCount then mixed.pOutRight k * gain * right
      else mixed.pOutRight k }

/-- The sampler after `passes` successive render passes of `sampleCount` frames. -/
def renderPasses (powf : F → F → F) (engine : VoiceEngine F) (sampleCount : Nat) :
    (passes : Nat) → CoreSampler F → CoreSampler F
  | 0, s => s
  | passes + 1, s =>
    renderPasses powf engine sampleCount passes
      (render powf engine s 2 sampleCount (fun _ => 0) (fun _ => 0)).sampler

/-- The idle voice slots (`noteNumber < 0`) in increasing index order. -/
def idleSlots (s : CoreSampler F) : List Nat :=
  (List.range MAX_POLYPHONY).filter (fun i => decide ((s.voice i).noteNumber < 0))

end CoreSampler

/-! ## Concrete data for closed examples -/

/-- A rational stand-in for the C library `pow`, exact whenever the exponent is an integer
(`octavePow 2 0 = 1`, `octavePow 2 1 = 2`); it is used in closed examples only, and only at
integer exponents. -/
def octavePow (b e : ℚ) : ℚ := b ^ ⌊e⌋

/-- A region with the given native note, key range and velocity range; unit gain, centred,
not looping. -/
def exampleRegion (noteNumber minimumNoteNumber maximumNoteNumber minimumVelocity
    maximumVelocity : Int) : KeyMappedSampleBuffer ℚ :=
  { noteNumber := noteNumber, noteDetune := 0, noteFrequency := 440,
    minimumNoteNumber := minimumNoteNumber, maximumNoteNumber := maximumNoteNumber,
    minimumVelocity := minimumVelocity, maximumVelocity := maximumVelocity,
    gain := 1, pan := 0, isLooping := false,
    startPoint := 0, endPoint := 0, loopStartPoint := 0, loopEndPoint := 0,
    sampleRate := 44100, channelCount := 1, sampleCount := 0, samples := [] }

/-- An idle voice that has received no call. -/
def idleVoice : SamplerVoice ℚ := { noteNumber := -1, calls := [] }

/-- A sampler with no region, an empty key map, idle voices, no key down, the pedal up,
polyphonic, the gate clear; every tuning-table entry is 440 Hz. -/
def emptySampler : CoreSampler ℚ :=
  { sampleBufferList := [], keyMap := fun _ => [], voice := fun _ => idleVoice,
    pedalLogic := { keyDown := fun _ => false, sustained := fun _ => false,
                    pedalIsDown := false },
    tuningTable := fun _ => 440, currentSampleRate := 44100, isKeyMapValid := false,
    isMonophonic := false, loopThruRelease := false, stoppingAllVoices := false,
    lastPlayedNoteNumber := 0, overallGain := 0, overallPan := 0 }

/-- The region of the A above middle C, mapped over the two octaves A3..A5, every velocity. -/
def regionA4 : KeyMappedSampleBuffer ℚ := exampleRegion 69 57 81 0 127

/-- One loaded region (`regionA4`), tuning table at 440 Hz. -/
def oneRegionSampler : CoreSampler ℚ :=
  { emptySampler with sampleBufferList := [regionA4] }

/-- One loaded region, and note 60 retuned to 2 MHz with `setNoteFrequency`. -/
def farTunedSampler : CoreSampler ℚ :=
  CoreSampler.setNoteFrequency oneRegionSampler 60 2000000

/-- A region with velocity layer 20..100. -/
def layeredRegion : KeyMappedSampleBuffer ℚ := exampleRegion 60 0 127 20 100

/-- A region without velocity restriction: both velocity bounds are the sentinel -1. -/
def unrestrictedRegion : KeyMappedSampleBuffer ℚ := exampleRegion 60 0 127 (-1) (-1)

/-- Note 60 is mapped to the region without velocity restriction. -/
def unrestrictedSampler : CoreSampler ℚ :=
  { emptySampler with
    sampleBufferList := [unrestrictedRegion],
    keyMap := fun n => if n = 60 then [unrestrictedRegion] else [],
    isKeyMapValid := true }

/-- Note 60 is mapped to the region with velocity layer 20..100. -/
def layeredSampler : CoreSampler ℚ :=
  { emptySampler with
    sampleBufferList := [layeredRegion],
    keyMap := fun n => if n = 60 then [layeredRegion] else [],
    isKeyMapValid := true }

/-- A voice sounding note 60: an idle voice started on `regionA4`. -/
def soundingVoice60 : SamplerVoice ℚ := idleVoice.start 60 44100 440 (100 / 127) regionA4

/-- A monophonic sampler with the stop-all gate set: slot 0 sounds note 60 and every note is
mapped to `regionA4`. -/
def gatedMonoSampler : CoreSampler ℚ :=
  { emptySampler with
    sampleBufferList := [regionA4],
    keyMap := fun _ => [regionA4],
    voice := fun i => if i = 0 then soundingVoice60 else idleVoice,
    isKeyMapValid := true, isMonophonic := true, stoppingAllVoices := true }

/-- A polyphonic sampler whose 64 slots all sound note 60, every note mapped to `regionA4`. -/
def fullSampler : CoreSampler ℚ :=
  { emptySampler with
    sampleBufferList := [regionA4],
    keyMap := fun _ => [regionA4],
    voice := fun _ => soundingVoice60,
    isKeyMapValid := true }

/-- A polyphonic sampler, every note mapped to `regionA4`, all voices idle. -/
def mappedSampler : CoreSampler ℚ :=
  { emptySampler with
    sampleBufferList := [regionA4],
    keyMap := fun _ => [regionA4],
    isKeyMapValid := true }

/-- The sampler `mappedSampler` with the stop-all gate set. -/
def gatedSampler : CoreSampler ℚ :=
  { mappedSampler with stoppingAllVoices := true }

/-- A monophonic sampler with a sounding voice left in slot 1: notes 64 and 60 are played in
polyphonic mode (slots 0 and 1), the sampler is switched to monophonic mode, key 60 is
released (monophonic `stop` looks at slot 0 only, which sounds 64), and the pedal is pressed. -/
def staleSlotSampler : CoreSampler ℚ :=
  let t1 := CoreSampler.playNote octavePow mappedSampler 64 100
  let t2 := CoreSampler.playNote octavePow t1 60 100
  let t3 : CoreSampler ℚ := { t2 with isMonophonic := true }
  let t4 := CoreSampler.stopNote t3 60 false
  CoreSampler.sustainPedal t4 true

/-- The sampler `mappedSampler` with the pedal pressed. -/
def pedalledSampler : CoreSampler ℚ := CoreSampler.sustainPedal mappedSampler true

/-- The sampler `staleSlotSampler` after note 60 has been pressed and released with the pedal
held: slot 0 and the left-over slot 1 both sound note 60, which is sustaining. -/
def staleSlotSustaining : CoreSampler ℚ :=
  CoreSampler.stopNote (CoreSampler.playNote octavePow staleSlotSampler 60 100) 60 false

/-- A fresh buffer whose playback geometry spans the whole sample (start 0, end
`sampleCount - 1`) and whose sample memory is zero. -/
def wholeSample (sampleCount : Int) : FreshBuffer ℚ :=
  { startPoint := 0, endPoint := ((sampleCount - 1 : Int) : ℚ), loopStartPoint := 0,
    loopEndPoint := ((sampleCount - 1 : Int) : ℚ), samples := fun _ => 0 }

/-- A mono, planar, looping descriptor for note 60 with the given frame count and playback
geometry; the sample data is silence. -/
def loopDescriptor (sampleCount : Int) (startPoint endPoint loopStartPoint loopEndPoint : ℚ) :
    SampleDataDescriptor ℚ :=
  { sampleDescriptor :=
      { noteNumber := 60, noteDetune := 0, noteFrequency := 440,
        minimumNoteNumber := 0, maximumNoteNumber := 127,
        minimumVelocity := 0, maximumVelocity := 127,
        isLooping := true, loopStartPoint := loopStartPoint, loopEndPoint := loopEndPoint,
        startPoint := startPoint, endPoint := endPoint, gain := 1, pan := 0 },
    sampleRate := 44100, isInterleaved := false, channelCount := 1,
    sampleCount := sampleCount, data := fun _ => 0 }

/-- A descriptor with zero frames and three channels. -/
def malformedDescriptor : SampleDataDescriptor ℚ :=
  { loopDescriptor 0 0 0 0 0 with channelCount := 3, isInterleaved := true }

/-- An interleaved two-channel descriptor of two frames whose data behind the pointer is
0, 1, 2, 3 (left 0 and 2, right 1 and 3). -/
def stereoDescriptor : SampleDataDescriptor ℚ :=
  { loopDescriptor 2 0 0 0 0 with
    channelCount := 2, isInterleaved := true, data := fun k => (k : ℚ) }

/-- A voice engine in which a voice reports finished as soon as it has been released or
stopped, and never before; every voice is silent. -/
def decayEngine : VoiceEngine ℚ :=
  { finished := fun v => decide (0 < v.stopReleaseCount), samples := fun _ _ => (0, 0) }

/-- Note 60 is played and held on `mappedSampler`, then `stopAllVoices` sets the gate. -/
def heldNoteGatedSampler : CoreSampler ℚ :=
  CoreSampler.stopAllVoices (CoreSampler.playNote octavePow mappedSampler 60 100)

/-- Notes 64 and 60 are played in polyphonic mode (slots 0 and 1), key 60 is released (slot 1
receives `release`), and the sampler is switched to monophonic mode. -/
def decayingSlotSampler : CoreSampler ℚ :=
  let t1 := CoreSampler.playNote octavePow mappedSampler 64 100
  let t2 := CoreSampler.playNote octavePow t1 60 100
  let t3 := CoreSampler.stopNote t2 60 false
  { t3 with isMonophonic := true }

/-- The sampler `oneRegionSampler` with a stale key map: every entry lists `regionA4` twice,
and the map is marked invalid. -/
def staleMapSampler : CoreSampler ℚ :=
  { oneRegionSampler with keyMap := fun _ => [regionA4, regionA4], isKeyMapValid := false }

/-! ## Generic facts about the loops -/

section Loops

/-- A push-back scan is a filter. -/
theorem foldl_push_eq_filter {α : Type} (p : α → Prop) [DecidablePred p] (l acc : List α) :
    l.foldl (fun m a => if p a then m ++ [a] else m) acc = acc ++ l.filter (fun a => decide (p a)) := by
  induction l generalizing acc with
  | nil => simp
  | cons a t ih =>
    simp only [List.foldl_cons, ih, List.filter_cons]
    by_cases h : p a <;> simp [h]

/-- A push-back scan into one entry of an array changes that entry only. -/
theorem foldl_push_entry {α : Type} (p : α → Prop) [DecidablePred p] (nn : Nat) (l : List α)
    (km : Nat → List α) :
    l.foldl (fun km a => if p a then Function.update km nn (km nn ++ [a]) else km) km
      = Function.update km nn (km nn ++ l.filter (fun a => decide (p a))) := by
  induction l generalizing km with
  | nil => simp
  | cons a t ih =>
    simp only [List.foldl_cons, ih, List.filter_cons]
    by_cases h : p a <;> simp [h]

/-- A loop over distinct indices whose body rewrites only its own entry. -/
theorem foldl_update_apply {β : Type} (g : Nat → β → β) (l : List Nat) (hl : l.Nodup)
    (arr : Nat → β) (n : Nat) :
    (l.foldl (fun a i => Function.update a i (g i (a i))) arr) n
      = if n ∈ l then g n (arr n) else arr n := by
  induction l generalizing arr with
  | nil => simp
  | cons i t ih =>
    have hi : i ∉ t := (List.nodup_cons.mp hl).1
    simp only [List.foldl_cons, ih (List.nodup_cons.mp hl).2, List.mem_cons]
    by_cases hni : n = i
    · subst hni
      simp [hi]
    · simp [hni, Function.update_noteq hni]

end Loops

/-! ## Key mapping -/

namespace CoreSampler

/-- A per-note push-back scan over all note numbers below `N` fills entry `n` with the
regions selected for `n`, in repository order. -/
theorem foldl_range_push_filter {α : Type} (p : Nat → α → Prop) [∀ n, DecidablePred (p n)]
    (l : List α) (N : Nat) (km : Nat → List α) (n : Nat) :
    ((List.range N).foldl
        (fun km nn =>
          l.foldl (fun km a => if p nn a then Function.update km nn (km nn ++ [a]) else km) km)
        km) n
      = if n < N then km n ++ l.filter (fun a => decide (p n a)) else km n := by
  have h := foldl_update_apply (fun nn (x : List α) => x ++ l.filter (fun a => decide (p nn a)))
    (List.range N) (List.nodup_range N) km n
  simp only [List.mem_range] at h
  have e : (fun (km : Nat → List α) nn =>
        l.foldl (fun km a => if p nn a then Function.update km nn (km nn ++ [a]) else km) km)
      = (fun km nn => Function.update km nn (km nn ++ l.filter (fun a => decide (p nn a)))) := by
    funext km nn
    exact foldl_push_entry (p nn) nn l km
  rw [e, h]

/-- After the clearing loop every entry below `MIDI_NOTENUMBERS` is empty. -/
theorem clearKeyMap_apply {F : Type} (km : Nat → List (KeyMappedSampleBuffer F)) (n : Nat) :
    clearKeyMap km n = if n < MIDI_NOTENUMBERS then [] else km n := by
  have h := foldl_update_apply (fun _ (_ : List (KeyMappedSampleBuffer F)) => [])
    (List.range MIDI_NOTENUMBERS) (List.nodup_range _) km n
  simpa [clearKeyMap] using h

/-- Entry `n` of the map built by `buildKeyMap`. -/
theorem buildKeyMap_keyMap {F : Type} [LinearOrderedField F] (pow : F → F → F) (s : CoreSampler F) (n : Nat)
    (hn : n < MIDI_NOTENUMBERS) :
    (buildKeyMap pow s).keyMap n
      = s.sampleBufferList.filter (fun r =>
          decide (NOTE_HZ pow r.minimumNoteNumber ≤ s.tuningTable n
            ∧ s.tuningTable n ≤ NOTE_HZ pow r.maximumNoteNumber)) := by
  have h := foldl_range_push_filter
    (fun nn (r : KeyMappedSampleBuffer F) =>
      s.tuningTable nn ≥ NOTE_HZ pow r.minimumNoteNumber
        ∧ s.tuningTable nn ≤ NOTE_HZ pow r.maximumNoteNumber)
    s.sampleBufferList MIDI_NOTENUMBERS (clearKeyMap s.keyMap) n
  simp only [buildKeyMap]
  rw [h, if_pos hn, clearKeyMap_apply, if_pos hn]
  simp

/-- Entry `n` of the map built by `buildSimpleKeyMap`. -/
theorem buildSimpleKeyMap_keyMap {F : Type} [LinearOrderedField F] (pow : F → F → F) (s : CoreSampler F) (n : Nat)
    (hn : n < MIDI_NOTENUMBERS) :
    (buildSimpleKeyMap pow s).keyMap n
      = s.sampleBufferList.filter (fun r =>
          decide (pitchDistance pow r (s.tuningTable n)
            = scanMinDistance pow s.sampleBufferList (s.tuningTable n))) := by
  have h := foldl_range_push_filter
    (fun nn (r : KeyMappedSampleBuffer F) =>
      pitchDistance pow r (s.tuningTable nn)
        = scanMinDistance pow s.sampleBufferList (s.tuningTable nn))
    s.sampleBufferList MIDI_NOTENUMBERS (clearKeyMap s.keyMap) n
  simp only [buildSimpleKeyMap]
  rw [h, if_pos hn, clearKeyMap_apply, if_pos hn]
  simp

/-- The running minimum of the first scan, from any start value: it is below the start value
and below every distance, and it is the start value or one of the distances. -/
theorem foldl_min_spec {F : Type} [LinearOrderedField F] {α : Type} (dist : α → F) (l : List α) (init : F) :
    l.foldl (fun acc a => if dist a < acc then dist a else acc) init ≤ init
      ∧ (∀ a ∈ l, l.foldl (fun acc a => if dist a < acc then dist a else acc) init ≤ dist a)
      ∧ (l.foldl (fun acc a => if dist a < acc then dist a else acc) init = init
          ∨ ∃ a ∈ l, l.foldl (fun acc a => if dist a < acc then dist a else acc) init = dist a) := by
  induction l generalizing init with
  | nil => simp
  | cons a t ih =>
    simp only [List.foldl_cons, List.mem_cons]
    by_cases h : dist a < init
    · simp only [h, if_true]
      obtain ⟨h1, h2, h3⟩ := ih (dist a)
      refine ⟨le_trans h1 (le_of_lt h), ?_, ?_⟩
      · intro b hb
        rcases hb with rfl | hb
        · exact h1
        · exact h2 b hb
      · rcases h3 with h3 | ⟨b, hb, h3⟩
        · exact Or.inr ⟨a, Or.inl rfl, h3⟩
        · exact Or.inr ⟨b, Or.inr hb, h3⟩
    · simp only [h, if_false]
      obtain ⟨h1, h2, h3⟩ := ih init
      refine ⟨h1, ?_, ?_⟩
      · intro b hb
        rcases hb with rfl | hb
        · exact le_trans h1 (not_lt.mp h)
        · exact h2 b hb
      · rcases h3 with h3 | ⟨b, hb, h3⟩
        · exact Or.inl h3
        · exact Or.inr ⟨b, Or.inr hb, h3⟩

/-- The result of `lookupSamples` is the velocity filter of the key-map entry. -/
theorem lookupSamples_eq_filter {F : Type} (s : CoreSampler F) (noteNumber velocity : Nat) :
    lookupSamples s noteNumber velocity
      = (s.keyMap noteNumber).filter (fun r =>
          decide (r.minimumVelocity ≤ castInt velocity ∧ castInt velocity ≤ r.maximumVelocity)) := by
  have h := foldl_push_eq_filter
    (fun r : KeyMappedSampleBuffer F =>
      castInt velocity ≥ r.minimumVelocity ∧ castInt velocity ≤ r.maximumVelocity)
    (s.keyMap noteNumber) []
  simp only [lookupSamples]
  rw [h]
  simp

/-- The conversion `(int)u` is the identity below `2^31`. -/
theorem castInt_of_lt (u : Nat) (hu : u < 2 ^ 31) : castInt u = (u : Int) := by
  have h1 : u % 2 ^ 32 = u := Nat.mod_eq_of_lt (by omega)
  simp only [castInt, h1]
  rw [if_pos hu]

end CoreSampler

/-! ## Claims on key mapping and lookup -/

namespace CoreSampler

/-- C1: after `buildKeyMap`, for every note number `n` below 128, a region is in `keyMap[n]`
if and only if it is in the repository and `Hz(minimumNoteNumber) ≤ tuningTable[n] ≤
Hz(maximumNoteNumber)`; such a region occurs in `keyMap[n]` as often as in the repository;
`keyMap[n]` is exactly the repository filtered by that test, hence in repository order and
with no other region; the repository is unchanged and the map is marked valid. -/
theorem buildKeyMap_range_mapping {F : Type} [LinearOrderedField F] (pow : F → F → F)
    (s : CoreSampler F) (n : Nat) (hn : n < MIDI_NOTENUMBERS) :
    (∀ r, r ∈ (buildKeyMap pow s).keyMap n ↔
        (r ∈ s.sampleBufferList ∧ NOTE_HZ pow r.minimumNoteNumber ≤ s.tuningTable n
          ∧ s.tuningTable n ≤ NOTE_HZ pow r.maximumNoteNumber))
    ∧ (∀ r, (NOTE_HZ pow r.minimumNoteNumber ≤ s.tuningTable n
          ∧ s.tuningTable n ≤ NOTE_HZ pow r.maximumNoteNumber) →
        List.count r ((buildKeyMap pow s).keyMap n) = List.count r s.sampleBufferList)
    ∧ (buildKeyMap pow s).keyMap n
        = s.sampleBufferList.filter (fun r =>
            decide (NOTE_HZ pow r.minimumNoteNumber ≤ s.tuningTable n
              ∧ s.tuningTable n ≤ NOTE_HZ pow r.maximumNoteNumber))
    ∧ List.Sublist ((buildKeyMap pow s).keyMap n) s.sampleBufferList
    ∧ (buildKeyMap pow s).sampleBufferList = s.sampleBufferList
    ∧ (buildKeyMap pow s).isKeyMapValid = true := by
  have hk := buildKeyMap_keyMap pow s n hn
  refine ⟨?_, ?_, hk, ?_, rfl, rfl⟩
  · intro r
    rw [hk]
    simp [List.mem_filter]
  · intro r hr
    rw [hk]
    exact List.count_filter (by simpa using hr)
  · rw [hk]
    exact List.filter_sublist _

/-- Witness of C1: note 60, tuned to 440 Hz, lies in the range A3..A5 of the loaded region. -/
theorem buildKeyMap_range_mapping_witness :
    60 < MIDI_NOTENUMBERS ∧ (buildKeyMap octavePow oneRegionSampler).keyMap 60 = [regionA4] := by
  refine ⟨by decide, ?_⟩
  rw [(buildKeyMap_range_mapping octavePow oneRegionSampler 60 (by decide)).2.2.1]
  have h1 : ⌊(((57 : Int) : ℚ) - 69) / 12⌋ = -1 := by
    rw [Int.floor_eq_iff]; norm_num
  have h2 : ⌊(((81 : Int) : ℚ) - 69) / 12⌋ = 1 := by
    rw [Int.floor_eq_iff]; norm_num
  simp only [oneRegionSampler, emptySampler, regionA4, exampleRegion, NOTE_HZ, octavePow, h1, h2]
  norm_num

/-- C2 at the failing input: with one loaded region (native note 69, 440 Hz) and note 60
tuned to 2 MHz, the repository is not empty, yet `buildSimpleKeyMap` leaves `keyMap[60]`
empty and maps note 60 to no region: the distance 1999560 is above the start value 1000000
of the minimum scan, so no region is at the distance the scan reports. -/
theorem buildSimpleKeyMap_far_tuning_unmapped :
    farTunedSampler.sampleBufferList ≠ [] ∧ 60 < MIDI_NOTENUMBERS
      ∧ pitchDistance octavePow regionA4 (farTunedSampler.tuningTable 60) = 1999560
      ∧ (buildSimpleKeyMap octavePow farTunedSampler).keyMap 60 = [] := by
  have h0 : ⌊(((69 : Int) : ℚ) - 69) / 12⌋ = 0 := by
    rw [Int.floor_eq_iff]; norm_num
  have hd : pitchDistance octavePow regionA4 (farTunedSampler.tuningTable 60) = 1999560 := by
    simp only [pitchDistance, farTunedSampler, setNoteFrequency, oneRegionSampler, emptySampler,
      regionA4, exampleRegion, NOTE_HZ, octavePow, h0, Function.update_same]
    norm_num [abs_of_neg]
  refine ⟨by simp [farTunedSampler, setNoteFrequency, oneRegionSampler], by decide, hd, ?_⟩
  rw [buildSimpleKeyMap_keyMap octavePow farTunedSampler 60 (by decide)]
  have hl : farTunedSampler.sampleBufferList = [regionA4] := rfl
  rw [hl]
  simp only [scanMinDistance, List.foldl_cons, List.foldl_nil, List.filter_cons, List.filter_nil,
    hd]
  norm_num

/-- Nearest-pitch mapping within the start value of the scan: after `buildSimpleKeyMap`, for
every tuning table, every repository and every note number `n` below 128, every region of
`keyMap[n]` is a loaded region whose pitch
distance `|Hz(noteNumber) - tuningTable[n]|` is minimal among all loaded regions; every
loaded region at the minimal distance is in `keyMap[n]` provided that distance is at most
1000000; and `keyMap[n]` is non-empty as soon as some loaded region lies at distance at most
1000000 from the note's frequency. -/
theorem buildSimpleKeyMap_nearest_pitch {F : Type} [LinearOrderedField F] (pow : F → F → F)
    (s : CoreSampler F) (n : Nat) (hn : n < MIDI_NOTENUMBERS) :
    (∀ r ∈ (buildSimpleKeyMap pow s).keyMap n,
        r ∈ s.sampleBufferList
          ∧ ∀ r' ∈ s.sampleBufferList,
              pitchDistance pow r (s.tuningTable n) ≤ pitchDistance pow r' (s.tuningTable n))
    ∧ (∀ r ∈ s.sampleBufferList,
        (∀ r' ∈ s.sampleBufferList,
            pitchDistance pow r (s.tuningTable n) ≤ pitchDistance pow r' (s.tuningTable n)) →
        pitchDistance pow r (s.tuningTable n) ≤ 1000000 →
        r ∈ (buildSimpleKeyMap pow s).keyMap n)
    ∧ ((∃ r ∈ s.sampleBufferList, pitchDistance pow r (s.tuningTable n) ≤ 1000000) →
        (buildSimpleKeyMap pow s).keyMap n ≠ []) := by
  have hk := buildSimpleKeyMap_keyMap pow s n hn
  obtain ⟨h1, h2, h3⟩ := foldl_min_spec (fun r => pitchDistance pow r (s.tuningTable n))
    s.sampleBufferList 1000000
  have hmem : ∀ r ∈ s.sampleBufferList,
      (∀ r' ∈ s.sampleBufferList,
          pitchDistance pow r (s.tuningTable n) ≤ pitchDistance pow r' (s.tuningTable n)) →
      pitchDistance pow r (s.tuningTable n) ≤ 1000000 →
      r ∈ (buildSimpleKeyMap pow s).keyMap n := by
    intro r hr hmin hle
    rw [hk, List.mem_filter]
    refine ⟨hr, ?_⟩
    simp only [decide_eq_true_eq, scanMinDistance]
    apply le_antisymm _ (h2 r hr)
    rcases h3 with h3 | ⟨a, ha, h3⟩
    · exact le_of_le_of_eq hle h3.symm
    · exact le_of_le_of_eq (hmin a ha) h3.symm
  refine ⟨?_, hmem, ?_⟩
  · intro r hr
    rw [hk, List.mem_filter] at hr
    obtain ⟨hr1, hr2⟩ := hr
    simp only [decide_eq_true_eq, scanMinDistance] at hr2
    refine ⟨hr1, fun r' hr' => ?_⟩
    rw [hr2]
    exact h2 r' hr'
  · rintro ⟨r, hr, hle⟩ hempty
    rcases h3 with h3 | ⟨a, ha, h3⟩
    · have hr' : r ∈ (buildSimpleKeyMap pow s).keyMap n := by
        rw [hk, List.mem_filter]
        refine ⟨hr, ?_⟩
        simp only [decide_eq_true_eq, scanMinDistance]
        exact le_antisymm (le_of_le_of_eq hle h3.symm) (h2 r hr)
      rw [hempty] at hr'
      exact List.not_mem_nil _ hr'
    · have ha' : a ∈ (buildSimpleKeyMap pow s).keyMap n := by
        rw [hk, List.mem_filter]
        refine ⟨ha, ?_⟩
        simp only [decide_eq_true_eq, scanMinDistance]
        exact h3.symm
      rw [hempty] at ha'
      exact List.not_mem_nil _ ha'

/-- An instance of the nearest-pitch mapping: one loaded region at 440 Hz and note 60 tuned
to 440 Hz. -/
theorem buildSimpleKeyMap_nearest_pitch_witness :
    60 < MIDI_NOTENUMBERS ∧ (buildSimpleKeyMap octavePow oneRegionSampler).keyMap 60 ≠ [] := by
  refine ⟨by decide, ?_⟩
  refine (buildSimpleKeyMap_nearest_pitch octavePow oneRegionSampler 60 (by decide)).2.2
    ⟨regionA4, by simp [oneRegionSampler], ?_⟩
  have h0 : ⌊(((69 : Int) : ℚ) - 69) / 12⌋ = 0 := by
    rw [Int.floor_eq_iff]; norm_num
  simp only [pitchDistance, oneRegionSampler, emptySampler, regionA4, exampleRegion, NOTE_HZ,
    octavePow, h0]
  norm_num

/-- C3: for every key map, every note number `n` (the entries of the array `keyMap` are those
with `n` in 0..127) and every velocity `v` in 0..127, `lookupSamples(n, v)` is `keyMap[n]` filtered by `minimumVelocity ≤ v ≤ maximumVelocity`
(both bounds inclusive): the same regions, in key-map order, nothing added.  In particular a
mapped region with layer 20..100 is returned for 20 and for 100, not for 19 and not for 101. -/
theorem lookupSamples_velocity_layer {F : Type} (s : CoreSampler F) (n v : Nat)
    (hv : v ≤ 127) :
    lookupSamples s n v
        = (s.keyMap n).filter (fun r =>
            decide (r.minimumVelocity ≤ (v : Int) ∧ (v : Int) ≤ r.maximumVelocity))
    ∧ (∀ r, r ∈ lookupSamples s n v ↔
        (r ∈ s.keyMap n ∧ r.minimumVelocity ≤ (v : Int) ∧ (v : Int) ≤ r.maximumVelocity))
    ∧ List.Sublist (lookupSamples s n v) (s.keyMap n)
    ∧ (∀ r ∈ s.keyMap n, r.minimumVelocity = 20 → r.maximumVelocity = 100 →
        (r ∈ lookupSamples s n 20 ∧ r ∈ lookupSamples s n 100
          ∧ r ∉ lookupSamples s n 19 ∧ r ∉ lookupSamples s n 101)) := by
  have hc : castInt v = (v : Int) := castInt_of_lt v (by omega)
  have hk := lookupSamples_eq_filter s n v
  rw [hc] at hk
  refine ⟨hk, ?_, ?_, ?_⟩
  · intro r
    rw [hk]
    simp [List.mem_filter]
  · rw [hk]
    exact List.filter_sublist _
  · intro r hr hmin hmax
    have e20 : castInt 20 = 20 := by decide
    have e100 : castInt 100 = 100 := by decide
    have e19 : castInt 19 = 19 := by decide
    have e101 : castInt 101 = 101 := by decide
    simp [lookupSamples_eq_filter, List.mem_filter, hr, hmin, hmax, e20, e100, e19, e101]

/-- Witness of C3: note 60 mapped to a region with layer 20..100, velocity 20. -/
theorem lookupSamples_velocity_layer_witness :
    20 ≤ 127 ∧ lookupSamples layeredSampler 60 20 = [layeredRegion] := by
  refine ⟨by decide, ?_⟩
  rw [(lookupSamples_velocity_layer layeredSampler 60 20 (by decide)).1]
  simp [layeredSampler, layeredRegion, exampleRegion]

/-- C4 at the failing input: note 60 is mapped to a region whose velocity bounds are both the
sentinel -1 (no velocity restriction), `lookupSamples(60, 64)` returns no region, and the
note-on `play(60, 64, _)` starts no voice. -/
theorem lookupSamples_drops_unrestricted_region :
    unrestrictedRegion ∈ unrestrictedSampler.keyMap 60
      ∧ unrestrictedRegion.minimumVelocity = -1 ∧ unrestrictedRegion.maximumVelocity = -1
      ∧ lookupSamples unrestrictedSampler 60 64 = []
      ∧ play octavePow unrestrictedSampler 60 64 false = unrestrictedSampler := by
  have e : castInt 64 = 64 := by decide
  have hl : lookupSamples unrestrictedSampler 60 64 = [] := by
    rw [lookupSamples_eq_filter, e]
    simp [unrestrictedSampler, unrestrictedRegion, exampleRegion]
  refine ⟨by simp [unrestrictedSampler], rfl, rfl, hl, ?_⟩
  simp only [play, hl]
  rfl

end CoreSampler

/-! ## Note dispatch: auxiliary facts -/

namespace CoreSampler

/-- With every slot from `i` on occupied, the polyphonic scan for an idle voice changes
nothing. -/
theorem startFirstIdle_occupied {F : Type} (act : SamplerVoice F → SamplerVoice F)
    (remaining i : Nat) (voice : Nat → SamplerVoice F)
    (h : ∀ j, i ≤ j → j < i + remaining → 0 ≤ (voice j).noteNumber) :
    startFirstIdle act remaining i voice = voice := by
  induction remaining generalizing i with
  | zero => rfl
  | succ k ih =>
    have hi : ¬ (voice i).noteNumber < 0 := not_lt.mpr (h i (le_refl i) (by omega))
    simp only [startFirstIdle, hi, if_false]
    exact ih (i + 1) (fun j h1 h2 => h j (by omega) (by omega))

/-- The polyphonic scan rewrites slots below `i + remaining` only. -/
theorem startFirstIdle_frame {F : Type} (act : SamplerVoice F → SamplerVoice F)
    (remaining i : Nat) (voice : Nat → SamplerVoice F) (j : Nat) (hj : i + remaining ≤ j) :
    startFirstIdle act remaining i voice j = voice j := by
  induction remaining generalizing i with
  | zero => rfl
  | succ k ih =>
    simp only [startFirstIdle]
    split
    · exact Function.update_noteq (by omega) _ _
    · exact ih (i + 1) (by omega)

/-- The loop of polyphonic `stop` treats every slot below `MAX_POLYPHONY` on its own. -/
theorem stop_loop_apply {F : Type} (c : SamplerVoice F → Prop) [DecidablePred c]
    (act : SamplerVoice F → SamplerVoice F) (voice : Nat → SamplerVoice F) (i : Nat) :
    ((List.range MAX_POLYPHONY).foldl
        (fun voice i => if c (voice i) then Function.update voice i (act (voice i)) else voice)
        voice) i
      = if i < MAX_POLYPHONY ∧ c (voice i) then act (voice i) else voice i := by
  have e : (fun (voice : Nat → SamplerVoice F) i =>
        if c (voice i) then Function.update voice i (act (voice i)) else voice)
      = (fun voice i => Function.update voice i (if c (voice i) then act (voice i) else voice i)) := by
    funext voice i
    by_cases h : c (voice i) <;> simp [h]
  rw [e, foldl_update_apply (fun _ v => if c v then act v else v) _ (List.nodup_range _)]
  by_cases h1 : i < MAX_POLYPHONY <;> by_cases h2 : c (voice i) <;> simp [h1, h2]

/-- The effect of `stop` on every voice slot, in both modes. -/
theorem stop_voice {F : Type} (s : CoreSampler F) (n : Nat) (immediate : Bool) (i : Nat) :
    (stop s n immediate).voice i
      = if scansSlot s i = true ∧ (s.voice i).noteNumber = castInt n then
          silence s immediate (s.voice i)
        else s.voice i := by
  cases hm : s.isMonophonic
  · simp only [stop, hm, scansSlot, Bool.false_eq_true, if_false, decide_eq_true_eq]
    exact stop_loop_apply (fun v => v.noteNumber = castInt n) (silence s immediate) s.voice i
  · simp only [stop, hm, scansSlot, if_true, decide_eq_true_eq]
    by_cases h0 : (s.voice 0).noteNumber = castInt n
    · simp only [h0, if_true]
      by_cases hi : i = 0
      · subst hi; simp [h0]
      · simp [hi, Function.update_noteq hi]
    · simp only [h0, if_false]
      by_cases hi : i = 0
      · subst hi; simp [h0]
      · simp [hi]

/-- The method `stop` rewrites voices only. -/
theorem stop_frame {F : Type} (s : CoreSampler F) (n : Nat) (immediate : Bool) :
    (stop s n immediate).pedalLogic = s.pedalLogic
      ∧ (stop s n immediate).isMonophonic = s.isMonophonic
      ∧ (stop s n immediate).loopThruRelease = s.loopThruRelease
      ∧ (stop s n immediate).stoppingAllVoices = s.stoppingAllVoices
      ∧ (stop s n immediate).lastPlayedNoteNumber = s.lastPlayedNoteNumber
      ∧ (stop s n immediate).keyMap = s.keyMap
      ∧ (stop s n immediate).sampleBufferList = s.sampleBufferList
      ∧ (stop s n immediate).tuningTable = s.tuningTable := by
  simp only [stop]
  split
  · split <;> simp
  · simp

/-- The voices after `stop` do not depend on the state of the sustain logic. -/
theorem stop_voice_pedalLogic {F : Type} (s : CoreSampler F) (p : SustainPedalLogic) (n : Nat)
    (immediate : Bool) :
    (stop { s with pedalLogic := p } n immediate).voice = (stop s n immediate).voice := by
  funext i
  rw [stop_voice, stop_voice]
  rfl

/-- In monophonic mode `play` rewrites no slot other than slot 0. -/
theorem play_monophonic_frame {F : Type} [LinearOrderedField F] (powf : F → F → F)
    (s : CoreSampler F) (n v : Nat) (a : Bool) (hmono : s.isMonophonic = true) (i : Nat)
    (hi : i ≠ 0) :
    (play powf s n v a).voice i = s.voice i := by
  simp only [play, hmono, if_true]
  split
  · rfl
  · split
    · rfl
    · exact Function.update_noteq hi _ _

/-- The method `play` rewrites voices and the last played note only. -/
theorem play_frame {F : Type} [LinearOrderedField F] (powf : F → F → F)
    (s : CoreSampler F) (n v : Nat) (a : Bool) :
    (play powf s n v a).pedalLogic = s.pedalLogic
      ∧ (play powf s n v a).isMonophonic = s.isMonophonic
      ∧ (play powf s n v a).stoppingAllVoices = s.stoppingAllVoices
      ∧ (play powf s n v a).keyMap = s.keyMap
      ∧ (play powf s n v a).tuningTable = s.tuningTable
      ∧ (play powf s n v a).currentSampleRate = s.currentSampleRate := by
  simp only [play]
  split
  · simp
  · split
    · split <;> simp
    · simp

end CoreSampler

/-! ## Claims on note dispatch -/

namespace CoreSampler

/-- C5: in polyphonic mode, if each of the 64 voice slots is occupied (`noteNumber >= 0`),
then `play(n, v, _)` leaves the sampler, and so every voice slot, unchanged: no voice is
started, restarted or stolen, and 64 voices are occupied before and after.  The number of
occupied voices after a `play` never exceeds 64, from any state. -/
theorem play_polyphonic_exhausted {F : Type} [LinearOrderedField F] (powf : F → F → F)
    (s : CoreSampler F) (n v : Nat) (a : Bool) (hpoly : s.isMonophonic = false)
    (hfull : ∀ i, i < MAX_POLYPHONY → 0 ≤ (s.voice i).noteNumber) :
    play powf s n v a = s
      ∧ (∀ i, (play powf s n v a).voice i = s.voice i)
      ∧ occupiedVoices s = MAX_POLYPHONY
      ∧ occupiedVoices (play powf s n v a) = MAX_POLYPHONY
      ∧ (∀ (t : CoreSampler F) (n' v' : Nat) (a' : Bool),
          occupiedVoices (play powf t n' v' a') ≤ MAX_POLYPHONY) := by
  have hloop : ∀ (l : List (KeyMappedSampleBuffer F)),
      l.foldl
        (fun voice pBuf =>
          startFirstIdle (triggerVoice powf s false n v pBuf) MAX_POLYPHONY 0 voice)
        s.voice = s.voice := by
    intro l
    induction l with
    | nil => rfl
    | cons r t ih =>
      rw [List.foldl_cons, startFirstIdle_occupied _ _ _ _ (fun j _ h2 => hfull j (by omega))]
      exact ih
  have hplay : play powf s n v a = s := by
    unfold play
    split
    · rfl
    · rw [if_neg (by rw [hpoly]; exact Bool.false_ne_true)]
      simp only [hloop]
  have hocc : occupiedVoices s = MAX_POLYPHONY := by
    have hall : (List.range MAX_POLYPHONY).filter
        (fun i => decide (0 ≤ (s.voice i).noteNumber)) = List.range MAX_POLYPHONY := by
      rw [List.filter_eq_self]
      intro i hi
      simpa using hfull i (List.mem_range.mp hi)
    simp only [occupiedVoices, hall, List.length_range]
  refine ⟨hplay, fun i => by rw [hplay], hocc, by rw [hplay]; exact hocc, ?_⟩
  intro t n' v' a'
  have hle := List.length_filter_le
    (fun i => decide (0 ≤ ((play powf t n' v' a').voice i).noteNumber))
    (List.range MAX_POLYPHONY)
  simpa [occupiedVoices] using hle

/-- Witness of C5: the polyphonic sampler whose 64 slots all sound note 60. -/
theorem play_polyphonic_exhausted_witness :
    fullSampler.isMonophonic = false
      ∧ (∀ i, i < MAX_POLYPHONY → 0 ≤ (fullSampler.voice i).noteNumber)
      ∧ play octavePow fullSampler 64 100 false = fullSampler :=
  have hfull : ∀ i, i < MAX_POLYPHONY → 0 ≤ (fullSampler.voice i).noteNumber :=
    fun _ _ => (by decide : 0 ≤ soundingVoice60.noteNumber)
  ⟨rfl, hfull, (play_polyphonic_exhausted octavePow fullSampler 64 100 false rfl hfull).1⟩

/-- C6 (as stated) fails while the stop-all gate is set: the sampler is monophonic, slot 0
holds the active note 60 and note 64 has a matching region, yet `play(64, 100, _)` leaves
slot 0 as it is, whereas a restart in place would have changed it. -/
theorem play_monophonic_gate_blocks_restart :
    gatedMonoSampler.isMonophonic = true
      ∧ lookupSamples gatedMonoSampler 64 100 = [regionA4]
      ∧ 0 ≤ (gatedMonoSampler.voice 0).noteNumber
      ∧ (play octavePow gatedMonoSampler 64 100 true).voice 0 = gatedMonoSampler.voice 0
      ∧ (play octavePow gatedMonoSampler 64 100 true).voice 0
          ≠ (((gatedMonoSampler.voice 0).restartNewNote 64 gatedMonoSampler.currentSampleRate
                (gatedMonoSampler.tuningTable 64 * octavePow 2 ((regionA4.noteDetune : ℚ) / 1200))
                ((100 : ℚ) / 127) regionA4).setGain regionA4.gain).setPan regionA4.pan := by
  have e : castInt 100 = 100 := by decide
  have hplay : play octavePow gatedMonoSampler 64 100 true = gatedMonoSampler := by
    simp [play, gatedMonoSampler]
  refine ⟨rfl, ?_, by decide, by rw [hplay], ?_⟩
  · rw [lookupSamples_eq_filter, e]
    simp [gatedMonoSampler, regionA4, exampleRegion]
  · rw [hplay]
    intro h
    have hn := congrArg SamplerVoice.noteNumber h
    revert hn
    decide

/-- C6 (amended): in monophonic mode with the stop-all gate clear, a note-on whose lookup
returns at least one region touches voice slot 0 only: if slot 0 holds an active note
(`noteNumber >= 0`) it receives `restartNewNote`, otherwise `start`, in both cases with the
first matching region, followed by that region's gain and pan; slots other than 0 are
unchanged, also after a second note-on, which (the first note still sounding in slot 0)
restarts slot 0 in place. -/
theorem play_monophonic_slot_zero {F : Type} [LinearOrderedField F] (powf : F → F → F)
    (s : CoreSampler F) (n v : Nat) (a : Bool) (pBuf : KeyMappedSampleBuffer F)
    (rest : List (KeyMappedSampleBuffer F))
    (hmono : s.isMonophonic = true) (hgate : s.stoppingAllVoices = false)
    (hlookup : lookupSamples s n v = pBuf :: rest) :
    (0 ≤ (s.voice 0).noteNumber →
        (play powf s n v a).voice 0
          = (((s.voice 0).restartNewNote n s.currentSampleRate
                (s.tuningTable n * powf 2 ((pBuf.noteDetune : F) / 1200))
                ((v : F) / 127) pBuf).setGain pBuf.gain).setPan pBuf.pan)
    ∧ ((s.voice 0).noteNumber < 0 →
        (play powf s n v a).voice 0
          = (((s.voice 0).start n s.currentSampleRate
                (s.tuningTable n * powf 2 ((pBuf.noteDetune : F) / 1200))
                ((v : F) / 127) pBuf).setGain pBuf.gain).setPan pBuf.pan)
    ∧ (∀ i, i ≠ 0 → (play powf s n v a).voice i = s.voice i)
    ∧ (play powf s n v a).lastPlayedNoteNumber = n
    ∧ (∀ (n₂ v₂ : Nat) (a₂ : Bool) (i : Nat), i ≠ 0 →
        (play powf (play powf s n v a) n₂ v₂ a₂).voice i = s.voice i)
    ∧ (∀ (n₂ v₂ : Nat) (a₂ : Bool) (pBuf₂ : KeyMappedSampleBuffer F)
        (rest₂ : List (KeyMappedSampleBuffer F)),
        n < 2 ^ 31 → lookupSamples s n₂ v₂ = pBuf₂ :: rest₂ →
        (play powf (play powf s n v a) n₂ v₂ a₂).voice 0
          = ((((play powf s n v a).voice 0).restartNewNote n₂ s.currentSampleRate
                (s.tuningTable n₂ * powf 2 ((pBuf₂.noteDetune : F) / 1200))
                ((v₂ : F) / 127) pBuf₂).setGain pBuf₂.gain).setPan pBuf₂.pan) := by
  have hv0 : (play powf s n v a).voice 0
      = triggerVoice powf s (decide ((s.voice 0).noteNumber ≥ 0)) n v pBuf (s.voice 0) := by
    simp only [play, hmono, hgate, hlookup, Bool.false_eq_true, if_false, if_true,
      Function.update_same]
  obtain ⟨_, hm1, hg1, hk1, ht1, hr1⟩ := play_frame powf s n v a
  have hnote : n < 2 ^ 31 → ((play powf s n v a).voice 0).noteNumber = (n : Int) := by
    intro hn
    rw [hv0]
    by_cases h : (s.voice 0).noteNumber ≥ 0 <;>
      simp [triggerVoice, h, SamplerVoice.setPan, SamplerVoice.setGain, SamplerVoice.start,
        SamplerVoice.restartNewNote, castInt_of_lt n hn]
  refine ⟨?_, ?_, ?_, ?_, ?_, ?_⟩
  · intro h
    rw [hv0]
    simp [triggerVoice, h]
  · intro h
    rw [hv0]
    simp [triggerVoice, not_le.mpr h]
  · intro i hi
    exact play_monophonic_frame powf s n v a hmono i hi
  · simp only [play, hmono, hgate, hlookup, Bool.false_eq_true, if_false, if_true]
  · intro n₂ v₂ a₂ i hi
    rw [play_monophonic_frame powf _ n₂ v₂ a₂ (hm1.trans hmono) i hi]
    exact play_monophonic_frame powf s n v a hmono i hi
  · intro n₂ v₂ a₂ pBuf₂ rest₂ hn hl₂
    have hl₂' : lookupSamples (play powf s n v a) n₂ v₂ = pBuf₂ :: rest₂ := by
      rw [← hl₂]
      simp only [lookupSamples, hk1]
    have hpos : ((play powf s n v a).voice 0).noteNumber ≥ 0 := by
      rw [hnote hn]; exact Int.natCast_nonneg n
    rw [hmono] at hm1
    rw [hgate] at hg1
    rw [← ht1, ← hr1]
    generalize play powf s n v a = s₁ at hm1 hg1 hl₂' hpos ⊢
    simp only [play, hm1, hg1, hl₂', Bool.false_eq_true, if_false, if_true,
      Function.update_same]
    simp [triggerVoice, hpos]

/-- Witness of C6 (amended): `gatedMonoSampler` with its gate cleared (monophonic, slot 0
sounding note 60, every note mapped to `regionA4`), note-on 64. -/
theorem play_monophonic_slot_zero_witness :
    ({ gatedMonoSampler with stoppingAllVoices := false } : CoreSampler ℚ).isMonophonic = true
      ∧ ({ gatedMonoSampler with stoppingAllVoices := false } : CoreSampler ℚ).stoppingAllVoices
          = false
      ∧ lookupSamples ({ gatedMonoSampler with stoppingAllVoices := false } : CoreSampler ℚ)
          64 100 = [regionA4]
      ∧ (play octavePow ({ gatedMonoSampler with stoppingAllVoices := false } : CoreSampler ℚ)
          64 100 true).lastPlayedNoteNumber = 64 := by
  have e : castInt 100 = 100 := by decide
  have hl : lookupSamples ({ gatedMonoSampler with stoppingAllVoices := false } : CoreSampler ℚ)
      64 100 = [regionA4] := by
    rw [lookupSamples_eq_filter, e]
    simp [gatedMonoSampler, regionA4, exampleRegion]
  exact ⟨rfl, rfl, hl,
    (play_monophonic_slot_zero octavePow _ 64 100 true regionA4 [] rfl rfl hl).2.2.2.1⟩

end CoreSampler

/-! ## Claims on note-off -/

namespace CoreSampler

/-- C7: `stop(n, immediate)`, for a note number `n` below `2^31`.  In polyphonic mode the
voice slots (below 64) whose `noteNumber` equals `n` receive `stop()` when `immediate`, else
`release(loopThruRelease)`, and every other slot is unchanged.  In monophonic mode slot 0
receives that action if and only if its `noteNumber` equals `n`, and no other slot is
touched. -/
theorem stop_selects_matching_voices {F : Type} (s : CoreSampler F) (n : Nat)
    (immediate : Bool) (hn : n < 2 ^ 31) :
    (s.isMonophonic = false →
        ∀ i, (stop s n immediate).voice i
          = if i < MAX_POLYPHONY ∧ (s.voice i).noteNumber = (n : Int) then
              (if immediate then (s.voice i).stop else (s.voice i).release s.loopThruRelease)
            else s.voice i)
    ∧ (s.isMonophonic = true →
        ((stop s n immediate).voice 0
            = if (s.voice 0).noteNumber = (n : Int) then
                (if immediate then (s.voice 0).stop else (s.voice 0).release s.loopThruRelease)
              else s.voice 0)
          ∧ ∀ i, i ≠ 0 → (stop s n immediate).voice i = s.voice i) := by
  have hc := castInt_of_lt n hn
  refine ⟨fun hm i => ?_, fun hm => ⟨?_, fun i hi => ?_⟩⟩
  · rw [stop_voice, hc]
    simp [scansSlot, hm, silence]
  · rw [stop_voice, hc]
    simp [scansSlot, hm, silence]
  · rw [stop_voice]
    simp [scansSlot, hm, hi]

/-- Witness of C7: stopping note 60 at once in the polyphonic sampler whose slots all sound
60, and releasing it in the monophonic sampler whose slot 0 sounds 60. -/
theorem stop_selects_matching_voices_witness :
    60 < 2 ^ 31 ∧ fullSampler.isMonophonic = false
      ∧ (stop fullSampler 60 true).voice 3 = soundingVoice60.stop
      ∧ gatedMonoSampler.isMonophonic = true
      ∧ (stop gatedMonoSampler 60 false).voice 0 = soundingVoice60.release false := by
  have h1 := (stop_selects_matching_voices fullSampler 60 true (by decide)).1 rfl 3
  have h2 := ((stop_selects_matching_voices gatedMonoSampler 60 false (by decide)).2 rfl).1
  refine ⟨by decide, rfl, ?_, rfl, ?_⟩
  · rw [h1]
    have e : (fullSampler.voice 3).noteNumber = ((60 : Nat) : Int) := by decide
    rw [if_pos ⟨by decide, e⟩, if_pos rfl]
    rfl
  · rw [h2]
    have e : (gatedMonoSampler.voice 0).noteNumber = ((60 : Nat) : Int) := by decide
    rw [if_pos e, if_neg Bool.false_ne_true]
    rfl

/-- C8: `stopNote(n, false)` consults `keyUpAction(n)`: when the answer is that the key-up
should not take effect, every voice slot is unchanged; when the answer is that it should,
`stop(n, false)` is performed (on the state whose sustain logic has recorded the key-up).
`stopNote(n, true)` is `stop(n, true)`, whatever the pedal and key state, and without
consulting the sustain logic. -/
theorem stopNote_defers_to_sustain_logic {F : Type} (s : CoreSampler F) (n : Nat) :
    (stopNote s n false).voice
        = (if (s.pedalLogic.keyUpAction n).2 = true then (stop s n false).voice else s.voice)
    ∧ stopNote s n false
        = (if (s.pedalLogic.keyUpAction n).2 = true then
            stop { s with pedalLogic := (s.pedalLogic.keyUpAction n).1 } n false
          else { s with pedalLogic := (s.pedalLogic.keyUpAction n).1 })
    ∧ (stopNote s n false).pedalLogic = (s.pedalLogic.keyUpAction n).1
    ∧ stopNote s n true = stop s n true
    ∧ (stopNote s n true).pedalLogic = s.pedalLogic := by
  refine ⟨?_, ?_, ?_, ?_, ?_⟩
  · cases h : (s.pedalLogic.keyUpAction n).2
    · simp [stopNote, h]
    · simp only [stopNote, h, Bool.false_eq_true, if_false, if_true]
      exact stop_voice_pedalLogic s _ n false
  · simp [stopNote]
  · cases h : (s.pedalLogic.keyUpAction n).2
    · simp [stopNote, h]
    · simp only [stopNote, h, Bool.false_eq_true, if_false, if_true]
      exact (stop_frame _ n false).1
  · simp [stopNote]
  · simp only [stopNote, if_true]
    exact (stop_frame s n true).1

/-- C10 (as stated) fails: with the stop-all gate set, `playNote(60, 100)` changes the
key-down state, key 60 is recorded as physically down. -/
theorem playNote_gated_records_key_down :
    gatedSampler.stoppingAllVoices = true
      ∧ gatedSampler.pedalLogic.keyDown 60 = false
      ∧ (playNote octavePow gatedSampler 60 100).pedalLogic.keyDown 60 = true := by
  refine ⟨rfl, rfl, ?_⟩
  simp [playNote, play, gatedSampler, SustainPedalLogic.keyDownAction]

/-- C10 (amended): while the stop-all gate is set, `playNote(n, v)` starts or restarts no
voice: the voice slots, the last played note and every other member of the sampler are
unchanged, except that the sustain logic records key `n` as physically down (the other keys,
the sustained notes and the pedal are unchanged). -/
theorem playNote_gated {F : Type} [LinearOrderedField F] (powf : F → F → F)
    (s : CoreSampler F) (n v : Nat) (hgate : s.stoppingAllVoices = true) :
    playNote powf s n v = { s with pedalLogic := s.pedalLogic.keyDownAction n }
      ∧ (playNote powf s n v).voice = s.voice
      ∧ (playNote powf s n v).lastPlayedNoteNumber = s.lastPlayedNoteNumber
      ∧ (playNote powf s n v).stoppingAllVoices = true
      ∧ (playNote powf s n v).pedalLogic.keyDown n = true
      ∧ (∀ m, m ≠ n → (playNote powf s n v).pedalLogic.keyDown m = s.pedalLogic.keyDown m)
      ∧ (playNote powf s n v).pedalLogic.sustained = s.pedalLogic.sustained
      ∧ (playNote powf s n v).pedalLogic.pedalIsDown = s.pedalLogic.pedalIsDown := by
  have h : playNote powf s n v = { s with pedalLogic := s.pedalLogic.keyDownAction n } := by
    simp only [playNote, play, hgate, if_true]
  rw [h]
  refine ⟨rfl, rfl, rfl, hgate, ?_, ?_, rfl, rfl⟩
  · simp [SustainPedalLogic.keyDownAction]
  · intro m hm
    simp [SustainPedalLogic.keyDownAction, Function.update_noteq hm]

/-- Witness of C10 (amended): the gated sampler, note-on 60. -/
theorem playNote_gated_witness :
    gatedSampler.stoppingAllVoices = true
      ∧ (playNote octavePow gatedSampler 60 100).voice = gatedSampler.voice :=
  ⟨rfl, (playNote_gated octavePow gatedSampler 60 100 rfl).2.1⟩

end CoreSampler

/-! ## Sustain pedal: auxiliary facts -/

namespace CoreSampler

/-- The polyphonic scan for an idle voice preserves every quantity that `act` preserves. -/
theorem startFirstIdle_preserves {F : Type} {β : Type} (f : SamplerVoice F → β)
    (act : SamplerVoice F → SamplerVoice F) (hact : ∀ v, f (act v) = f v)
    (remaining i : Nat) (voice : Nat → SamplerVoice F) (j : Nat) :
    f (startFirstIdle act remaining i voice j) = f (voice j) := by
  induction remaining generalizing i with
  | zero => rfl
  | succ k ih =>
    simp only [startFirstIdle]
    split
    · by_cases hj : j = i
      · subst hj; simp [hact]
      · rw [Function.update_noteq hj]
    · exact ih (i + 1)

/-- Delivering a note-on to a voice adds no `stop` and no `release` to its history. -/
theorem triggerVoice_stopReleaseCount {F : Type} [LinearOrderedField F] (powf : F → F → F)
    (s : CoreSampler F) (restart : Bool) (n v : Nat) (pBuf : KeyMappedSampleBuffer F)
    (pVoice : SamplerVoice F) :
    (triggerVoice powf s restart n v pBuf pVoice).stopReleaseCount = pVoice.stopReleaseCount := by
  cases restart <;>
    simp [triggerVoice, SamplerVoice.stopReleaseCount, SamplerVoice.setPan, SamplerVoice.setGain,
      SamplerVoice.start, SamplerVoice.restartNewNote, List.filter_append]

/-- The method `play` delivers no `stop` and no `release` to any voice. -/
theorem play_stopReleaseCount {F : Type} [LinearOrderedField F] (powf : F → F → F)
    (s : CoreSampler F) (n v : Nat) (a : Bool) (i : Nat) :
    ((play powf s n v a).voice i).stopReleaseCount = (s.voice i).stopReleaseCount := by
  have hloop : ∀ (l : List (KeyMappedSampleBuffer F)) (voice : Nat → SamplerVoice F),
      ((l.foldl
        (fun voice pBuf =>
          startFirstIdle (triggerVoice powf s false n v pBuf) MAX_POLYPHONY 0 voice)
        voice) i).stopReleaseCount = (voice i).stopReleaseCount := by
    intro l
    induction l with
    | nil => intro voice; rfl
    | cons r t ih =>
      intro voice
      rw [List.foldl_cons, ih]
      exact startFirstIdle_preserves SamplerVoice.stopReleaseCount _
        (triggerVoice_stopReleaseCount powf s false n v r) _ _ _ _
  simp only [play]
  split
  · rfl
  · split
    · split
      · rfl
      · by_cases hi : i = 0
        · subst hi
          simp only [Function.update_same]
          exact triggerVoice_stopReleaseCount powf s _ n v _ _
        · simp only [Function.update_noteq hi]
    · exact hloop _ _

/-- What the loop of `sustainPedal(false)` does to one voice that `stop` examines, note by
note over a list of distinct note numbers below `2^31`: the voice is released once if its
note is one of the sustaining notes of the list, and is left alone otherwise. -/
theorem release_scan_voice {F : Type} (p : SustainPedalLogic) (ltr : Bool) (l : List Nat)
    (hl : l.Nodup) (hlt : ∀ m ∈ l, m < 2 ^ 31) (v : SamplerVoice F) :
    l.foldl
        (fun v nn =>
          if p.isNoteSustaining nn = true ∧ v.noteNumber = castInt nn then v.release ltr else v)
        v
      = if ∃ m ∈ l, p.isNoteSustaining m = true ∧ v.noteNumber = (m : Int) then v.release ltr
        else v := by
  induction l generalizing v with
  | nil => simp
  | cons a t ih =>
    have ha : castInt a = (a : Int) := castInt_of_lt a (hlt a (List.mem_cons_self a t))
    have hat : a ∉ t := (List.nodup_cons.mp hl).1
    have iht := fun v => ih (List.nodup_cons.mp hl).2
      (fun m hm => hlt m (List.mem_cons_of_mem a hm)) v
    rw [List.foldl_cons, iht, ha]
    by_cases hc : p.isNoteSustaining a = true ∧ v.noteNumber = (a : Int)
    · have hno : ¬ ∃ m ∈ t, p.isNoteSustaining m = true
          ∧ (v.release ltr).noteNumber = (m : Int) := by
        rintro ⟨m, hm, _, hm2⟩
        have hma : (m : Int) = (a : Int) := by
          rw [← hm2, ← hc.2]; rfl
        exact hat (Int.ofNat_inj.mp hma ▸ hm)
      have hyes : ∃ m ∈ a :: t, p.isNoteSustaining m = true ∧ v.noteNumber = (m : Int) :=
        ⟨a, List.mem_cons_self a t, hc⟩
      rw [if_pos hc, if_neg hno, if_pos hyes]
    · rw [if_neg hc]
      by_cases ht : ∃ m ∈ t, p.isNoteSustaining m = true ∧ v.noteNumber = (m : Int)
      · have hyes : ∃ m ∈ a :: t, p.isNoteSustaining m = true ∧ v.noteNumber = (m : Int) := by
          obtain ⟨m, hm, h⟩ := ht
          exact ⟨m, List.mem_cons_of_mem a hm, h⟩
        rw [if_pos ht, if_pos hyes]
      · have hno : ¬ ∃ m ∈ a :: t, p.isNoteSustaining m = true ∧ v.noteNumber = (m : Int) := by
          rintro ⟨m, hm, h⟩
          rcases List.mem_cons.mp hm with rfl | hm
          · exact hc h
          · exact ht ⟨m, hm, h⟩
        rw [if_neg ht, if_neg hno]

/-- The loop of `sustainPedal(false)` over a list of note numbers: the sustain logic and the
mode are unchanged, and every voice that `stop` examines goes through the release scan. -/
theorem sustain_loop {F : Type} (l : List Nat) (s : CoreSampler F) :
    (l.foldl (fun st nn => if st.pedalLogic.isNoteSustaining nn then stop st nn false else st)
        s).pedalLogic = s.pedalLogic
    ∧ (l.foldl (fun st nn => if st.pedalLogic.isNoteSustaining nn then stop st nn false else st)
        s).isMonophonic = s.isMonophonic
    ∧ (l.foldl (fun st nn => if st.pedalLogic.isNoteSustaining nn then stop st nn false else st)
        s).loopThruRelease = s.loopThruRelease
    ∧ ∀ i,
        (l.foldl (fun st nn => if st.pedalLogic.isNoteSustaining nn then stop st nn false else st)
          s).voice i
        = if scansSlot s i = true then
            l.foldl
              (fun v nn =>
                if s.pedalLogic.isNoteSustaining nn = true ∧ v.noteNumber = castInt nn then
                  v.release s.loopThruRelease
                else v)
              (s.voice i)
          else s.voice i := by
  induction l generalizing s with
  | nil => simp
  | cons a t ih =>
    simp only [List.foldl_cons]
    by_cases hs : s.pedalLogic.isNoteSustaining a = true
    · obtain ⟨h1, h2, h3, h4⟩ := ih (stop s a false)
      obtain ⟨f1, f2, f3, _⟩ := stop_frame s a false
      simp only [hs, if_true]
      refine ⟨h1.trans f1, h2.trans f2, h3.trans f3, fun i => ?_⟩
      rw [h4 i, f1, f3, stop_voice]
      have hsc : scansSlot (stop s a false) i = scansSlot s i := by
        simp only [scansSlot, f2]
      rw [hsc]
      cases hi : scansSlot s i <;> simp [silence]
    · obtain ⟨h1, h2, h3, h4⟩ := ih s
      simp only [hs, Bool.false_eq_true, if_false, false_and]
      exact ⟨h1, h2, h3, h4⟩

/-- The effect of `sustainPedal(false)` on every voice slot, in both modes. -/
theorem sustainPedal_up_voice {F : Type} (s : CoreSampler F) (i : Nat) :
    (sustainPedal s false).voice i
      = if scansSlot s i = true ∧ ∃ m ∈ List.range MIDI_NOTENUMBERS,
            s.pedalLogic.isNoteSustaining m = true ∧ (s.voice i).noteNumber = (m : Int) then
          (s.voice i).release s.loopThruRelease
        else s.voice i := by
  obtain ⟨_, _, _, h4⟩ := sustain_loop (List.range MIDI_NOTENUMBERS) s
  have hlt : ∀ m ∈ List.range MIDI_NOTENUMBERS, m < 2 ^ 31 := by
    intro m hm
    have := List.mem_range.mp hm
    simp only [MIDI_NOTENUMBERS] at this
    omega
  simp only [sustainPedal, Bool.false_eq_true, if_false]
  rw [h4 i, release_scan_voice _ _ _ (List.nodup_range _) hlt]
  cases hi : scansSlot s i <;> simp

end CoreSampler

/-! ## Claims on the sustain pedal -/

namespace CoreSampler

/-- C9 (as stated) fails in monophonic mode: the pedal is held, note 60 is pressed and
released (it is sustaining and no longer physically held), slot 1 sounds note 60, and
`sustainPedal(false)` leaves slot 1 without a release. -/
theorem sustainPedal_monophonic_leaves_stale_voice :
    staleSlotSampler.pedalLogic.pedalIsDown = true
      ∧ staleSlotSustaining.isMonophonic = true
      ∧ staleSlotSustaining.pedalLogic.isNoteSustaining 60 = true
      ∧ staleSlotSustaining.pedalLogic.keyDown 60 = false
      ∧ (staleSlotSustaining.voice 1).noteNumber = 60
      ∧ (sustainPedal staleSlotSustaining false).voice 1 = staleSlotSustaining.voice 1
      ∧ (sustainPedal staleSlotSustaining false).voice 1
          ≠ (staleSlotSustaining.voice 1).release staleSlotSustaining.loopThruRelease := by
  have hm : staleSlotSustaining.isMonophonic = true := by decide
  have hv : (sustainPedal staleSlotSustaining false).voice 1 = staleSlotSustaining.voice 1 := by
    rw [sustainPedal_up_voice]
    simp [scansSlot, hm]
  refine ⟨by decide, hm, by decide, by decide, by decide, hv, ?_⟩
  rw [hv]
  intro h
  have hc := congrArg (fun v => v.calls.length) h
  simp [SamplerVoice.release] at hc

/-- C9 (amended): with the sustain pedal held down, after `playNote(n, v)` followed by
`stopNote(n, false)` (`n` a MIDI note number), `stopNote` has left every voice as `playNote`
left it, no voice has received a `stop` or a `release`, and `n` is reported as sustaining.
A following `sustainPedal(false)`, from any state `t`, releases (non-immediately, once) in
polyphonic mode every voice, and in monophonic mode voice slot 0 only, whose note is
sustaining and no longer physically held, leaves the other voices unchanged, in particular
every voice whose key has been pressed again and is still down, and leaves no note
sustaining.  In particular the voices sounding `n` after the key-up are released at
pedal-up. -/
theorem sustainPedal_defers_release {F : Type} [LinearOrderedField F] (powf : F → F → F)
    (s : CoreSampler F) (n v : Nat) (hped : s.pedalLogic.pedalIsDown = true)
    (hn : n < MIDI_NOTENUMBERS) :
    (∀ i, (stopNote (playNote powf s n v) n false).voice i = (playNote powf s n v).voice i)
    ∧ (∀ i, ((stopNote (playNote powf s n v) n false).voice i).stopReleaseCount
          = (s.voice i).stopReleaseCount)
    ∧ (stopNote (playNote powf s n v) n false).pedalLogic.isNoteSustaining n = true
    ∧ (stopNote (playNote powf s n v) n false).pedalLogic.pedalIsDown = true
    ∧ (∀ i, (if s.isMonophonic = true then i = 0 else i < MAX_POLYPHONY) →
        ((stopNote (playNote powf s n v) n false).voice i).noteNumber = (n : Int) →
        (sustainPedal (stopNote (playNote powf s n v) n false) false).voice i
          = ((stopNote (playNote powf s n v) n false).voice i).release s.loopThruRelease)
    ∧ (∀ t : CoreSampler F,
        (t.isMonophonic = false →
          ∀ i, (sustainPedal t false).voice i
            = if i < MAX_POLYPHONY ∧ ∃ m, m < MIDI_NOTENUMBERS
                  ∧ t.pedalLogic.isNoteSustaining m = true ∧ (t.voice i).noteNumber = (m : Int) then
                (t.voice i).release t.loopThruRelease
              else t.voice i)
        ∧ (t.isMonophonic = true →
            ((sustainPedal t false).voice 0
              = if ∃ m, m < MIDI_NOTENUMBERS
                    ∧ t.pedalLogic.isNoteSustaining m = true ∧ (t.voice 0).noteNumber = (m : Int) then
                  (t.voice 0).release t.loopThruRelease
                else t.voice 0)
            ∧ ∀ i, i ≠ 0 → (sustainPedal t false).voice i = t.voice i)
        ∧ (∀ (i m : Nat), (t.voice i).noteNumber = (m : Int) → t.pedalLogic.keyDown m = true →
            (sustainPedal t false).voice i = t.voice i)
        ∧ (∀ m, (sustainPedal t false).pedalLogic.isNoteSustaining m = false)
        ∧ (sustainPedal t false).pedalLogic.pedalIsDown = false) := by
  obtain ⟨hp1, hm1, _, _, _, _⟩ := play_frame powf
    ({ s with pedalLogic := s.pedalLogic.keyDownAction n } : CoreSampler F) n v
    s.pedalLogic.isAnyKeyDown
  have hpl : (playNote powf s n v).pedalLogic = s.pedalLogic.keyDownAction n := hp1
  have hmo : (playNote powf s n v).isMonophonic = s.isMonophonic := hm1
  have hdown : (playNote powf s n v).pedalLogic.pedalIsDown = true := by
    rw [hpl]; exact hped
  have hans : ((playNote powf s n v).pedalLogic.keyUpAction n).2 = false := by
    simp [SustainPedalLogic.keyUpAction, hdown]
  have hstop : stopNote (playNote powf s n v) n false
      = { playNote powf s n v with
          pedalLogic := ((playNote powf s n v).pedalLogic.keyUpAction n).1 } := by
    simp [stopNote, hans]
  have hsus : (((playNote powf s n v).pedalLogic.keyUpAction n).1).isNoteSustaining n = true := by
    simp [SustainPedalLogic.keyUpAction, hdown, SustainPedalLogic.isNoteSustaining]
  have hup : ∀ (t : CoreSampler F) (i : Nat),
      (sustainPedal t false).voice i
        = if scansSlot t i = true ∧ ∃ m, m < MIDI_NOTENUMBERS
              ∧ t.pedalLogic.isNoteSustaining m = true ∧ (t.voice i).noteNumber = (m : Int) then
            (t.voice i).release t.loopThruRelease
          else t.voice i := by
    intro t i
    rw [sustainPedal_up_voice]
    simp only [List.mem_range]
  have hltr : ∀ t : CoreSampler F, (sustainPedal t false).pedalLogic = t.pedalLogic.pedalUp := by
    intro t
    simp only [sustainPedal, Bool.false_eq_true, if_false]
    rw [(sustain_loop (List.range MIDI_NOTENUMBERS) t).1]
  refine ⟨fun i => by rw [hstop], fun i => ?_, ?_, ?_, ?_, fun t => ⟨?_, ?_, ?_, ?_, ?_⟩⟩
  · rw [hstop]
    exact play_stopReleaseCount powf _ n v _ i
  · rw [hstop]; exact hsus
  · rw [hstop]
    simp [SustainPedalLogic.keyUpAction, hdown]
  · intro i hi hnote
    have hscan : scansSlot (stopNote (playNote powf s n v) n false) i = true := by
      rw [hstop]
      simp only [scansSlot, hmo]
      cases hm : s.isMonophonic
      · simpa [hm] using hi
      · simpa [hm] using hi
    have hl : (stopNote (playNote powf s n v) n false).loopThruRelease = s.loopThruRelease := by
      rw [hstop]
      simp only [playNote, play]
      split
      · rfl
      · split
        · split <;> rfl
        · rfl
    have hs' : (stopNote (playNote powf s n v) n false).pedalLogic.isNoteSustaining n = true := by
      rw [hstop]; exact hsus
    rw [hup, if_pos ⟨hscan, n, hn, hs', hnote⟩, hl]
  · intro hm i
    rw [hup]
    simp [scansSlot, hm]
  · intro hm
    refine ⟨?_, fun i hi => ?_⟩
    · rw [hup]
      simp [scansSlot, hm]
    · rw [hup]
      simp [scansSlot, hm, hi]
  · intro i m hnote hkey
    rw [hup, if_neg]
    rintro ⟨_, m', _, hs', hnote'⟩
    have hmm : m' = m := Int.ofNat_inj.mp (hnote'.symm.trans hnote)
    subst hmm
    simp [SustainPedalLogic.isNoteSustaining, hkey] at hs'
  · intro m
    rw [hltr]
    simp [SustainPedalLogic.pedalUp, SustainPedalLogic.isNoteSustaining]
  · rw [hltr]
    rfl

/-- Witness of C9 (amended): the polyphonic sampler with the pedal pressed, note 60 pressed
and released, then the pedal released; slot 0, which sounds note 60, is released once. -/
theorem sustainPedal_defers_release_witness :
    pedalledSampler.pedalLogic.pedalIsDown = true ∧ 60 < MIDI_NOTENUMBERS
      ∧ (stopNote (playNote octavePow pedalledSampler 60 100) 60 false).pedalLogic.isNoteSustaining
          60 = true
      ∧ (sustainPedal (stopNote (playNote octavePow pedalledSampler 60 100) 60 false) false).voice 0
          = ((stopNote (playNote octavePow pedalledSampler 60 100) 60 false).voice 0).release
              pedalledSampler.loopThruRelease :=
  have h := sustainPedal_defers_release octavePow pedalledSampler 60 100 rfl (by decide)
  ⟨rfl, by decide, h.2.2.1, h.2.2.2.2.1 0 (by decide) (by decide)⟩

end CoreSampler

/-! ## Claims on sample loading and unloading -/

namespace CoreSampler

/-- The conversion `float(i)` is exact for values of magnitude up to `2^24`. -/
theorem floatOfInt_of_le (i : Int) (h : i.natAbs ≤ 2 ^ 24) : floatOfInt i = i := by
  simp only [floatOfInt]
  rw [if_pos h]

/-- The conversion `float(i)` of a value of at least 2 is above 1. -/
theorem floatOfInt_gt_one (i : Int) (h : 2 ≤ i) : 1 < floatOfInt i := by
  by_cases hs : i.natAbs ≤ 2 ^ 24
  · rw [floatOfInt_of_le i hs]
    omega
  · simp only [floatOfInt]
    rw [if_neg hs]
    have hsign : i.sign = 1 := Int.sign_eq_one_of_pos (by omega)
    have he : ((List.range 8).filter (fun k => decide (2 ^ (24 + k) ≤ i.natAbs))).length
        ≤ 8 := by
      have := List.length_filter_le (fun k => decide (2 ^ (24 + k) ≤ i.natAbs)) (List.range 8)
      simpa using this
    generalize ((List.range 8).filter (fun k => decide (2 ^ (24 + k) ≤ i.natAbs))).length = e
      at he ⊢
    have hp : 2 ^ e ≤ 2 ^ 8 := Nat.pow_le_pow_right (by decide) he
    have hpos : 0 < 2 ^ e := Nat.two_pow_pos e
    have hr : i.natAbs % 2 ^ e < 2 ^ e := Nat.mod_lt _ hpos
    have hd : 2 ^ e * (i.natAbs / 2 ^ e) + i.natAbs % 2 ^ e = i.natAbs := Nat.div_add_mod _ _
    have hq : i.natAbs / 2 ^ e * 2 ^ e
        ≤ (if 2 * (i.natAbs % 2 ^ e) > 2 ^ e
              ∨ (2 * (i.natAbs % 2 ^ e) = 2 ^ e ∧ i.natAbs / 2 ^ e % 2 = 1)
            then i.natAbs / 2 ^ e + 1 else i.natAbs / 2 ^ e) * 2 ^ e := by
      apply Nat.mul_le_mul_right
      split <;> omega
    rw [hsign, one_mul]
    have h256 : (2 : Nat) ^ 8 = 256 := by norm_num
    have h24 : (2 : Nat) ^ 24 = 16777216 := by norm_num
    rw [h256] at hp
    rw [h24] at hs
    have hm : 2 ^ e * (i.natAbs / 2 ^ e) = i.natAbs / 2 ^ e * 2 ^ e := Nat.mul_comm _ _
    have : 1 < (if 2 * (i.natAbs % 2 ^ e) > 2 ^ e
              ∨ (2 * (i.natAbs % 2 ^ e) = 2 ^ e ∧ i.natAbs / 2 ^ e % 2 = 1)
            then i.natAbs / 2 ^ e + 1 else i.natAbs / 2 ^ e) * 2 ^ e := by
      omega
    exact_mod_cast this

/-- The conversion `float(i)` above `2^24`: 16777217 is not representable and becomes
16777216 (tie, to even), 16777219 becomes 16777220. -/
theorem floatOfInt_rounds :
    floatOfInt 16777216 = 16777216 ∧ floatOfInt 16777217 = 16777216
      ∧ floatOfInt 16777218 = 16777218 ∧ floatOfInt 16777219 = 16777220 := by
  refine ⟨?_, ?_, ?_, ?_⟩ <;> decide

/-- The end point of the region that `loadSampleData` builds. -/
theorem loadedBuffer_endPoint {F : Type} [LinearOrderedField F] (fresh : FreshBuffer F)
    (sdd : SampleDataDescriptor F) :
    (loadedBuffer fresh sdd).endPoint
      = if sdd.sampleDescriptor.endPoint > 0 then sdd.sampleDescriptor.endPoint
        else fresh.endPoint := rfl

/-- Raising a value to a lower bound, as the source writes it, is a maximum. -/
theorem raise_eq_max {F : Type} [LinearOrderedField F] (a b : F) :
    (if a < b then b else a) = max b a := by
  split
  · next h => exact (max_eq_left (le_of_lt h)).symm
  · next h => exact (max_eq_right (not_lt.mp h)).symm

/-- Lowering a value to an upper bound, as the source writes it, is a minimum. -/
theorem lower_eq_min {F : Type} [LinearOrderedField F] (a b : F) :
    (if a > b then b else a) = min b a := by
  split
  · next h => exact (min_eq_left (le_of_lt h)).symm
  · next h => exact (min_eq_right (not_lt.mp h)).symm

/-- The region appended by `loadSampleData` is the last region of the repository. -/
theorem loadSampleData_getLast {F : Type} [LinearOrderedField F] (fresh : FreshBuffer F)
    (s : CoreSampler F) (sdd : SampleDataDescriptor F) :
    (loadSampleData fresh s sdd).sampleBufferList.getLast? = some (loadedBuffer fresh sdd) := by
  simp [loadSampleData]

/-- C12 (as stated) fails for a loop end given as the fraction 0: with 1001 frames, end point
1000 and loop points 0.5 and 0, the loop end of the loaded region is 1000, not
`0 * endPoint = 0` (the value 0 is first repaired to `sampleCount - 1`). -/
theorem loadSampleData_zero_loop_end_not_fraction :
    (loopDescriptor 1001 0 1000 (1 / 2) 0).sampleDescriptor.isLooping = true
      ∧ (0 : ℚ) ≤ (loopDescriptor 1001 0 1000 (1 / 2) 0).sampleDescriptor.loopEndPoint
      ∧ (loopDescriptor 1001 0 1000 (1 / 2) 0).sampleDescriptor.loopEndPoint ≤ 1
      ∧ (loadedBuffer (wholeSample 1001) (loopDescriptor 1001 0 1000 (1 / 2) 0)).endPoint = 1000
      ∧ (loadedBuffer (wholeSample 1001) (loopDescriptor 1001 0 1000 (1 / 2) 0)).loopEndPoint
          = 1000
      ∧ (loadedBuffer (wholeSample 1001) (loopDescriptor 1001 0 1000 (1 / 2) 0)).loopEndPoint
          ≠ (loopDescriptor 1001 0 1000 (1 / 2) 0).sampleDescriptor.loopEndPoint
              * (loadedBuffer (wholeSample 1001) (loopDescriptor 1001 0 1000 (1 / 2) 0)).endPoint := by
  have he : (loadedBuffer (wholeSample 1001) (loopDescriptor 1001 0 1000 (1 / 2) 0)).endPoint
      = 1000 := by
    simp [loadedBuffer, loopDescriptor]
  have hf : floatOfInt 1000 = 1000 := by decide
  have hl : (loadedBuffer (wholeSample 1001) (loopDescriptor 1001 0 1000 (1 / 2) 0)).loopEndPoint
      = 1000 := by
    simp [loadedBuffer, loopDescriptor, repairedLoopEndPoint, resolveLoopPoint, hf]
  refine ⟨rfl, ?_, ?_, he, hl, ?_⟩
  · simp [loopDescriptor]
  · simp [loopDescriptor]
  · rw [hl, he]
    simp [loopDescriptor]

/-- C12 (amended): for a looping region loaded by `loadSampleData`, the loop start resolves to
`loopStartPoint` itself when that value is above 1 (a frame index) and to
`endPoint * loopStartPoint` otherwise (a fraction, in particular one in [0, 1]), and is then
raised to `startPoint`; a loop end other than exactly 0 resolves in the same way and is then
lowered to `endPoint`.  With loop points 0.5 and 0.9, end point 1000 and a start point of at
most 500 the loop points of the region are 500 and 900. -/
theorem loadSampleData_resolves_loop_points {F : Type} [LinearOrderedField F]
    (fresh : FreshBuffer F) (s : CoreSampler F) (sdd : SampleDataDescriptor F)
    (hloop : sdd.sampleDescriptor.isLooping = true) :
    (loadSampleData fresh s sdd).sampleBufferList.getLast? = some (loadedBuffer fresh sdd)
    ∧ (loadedBuffer fresh sdd).loopStartPoint
        = max (loadedBuffer fresh sdd).startPoint
            (if sdd.sampleDescriptor.loopStartPoint > 1 then sdd.sampleDescriptor.loopStartPoint
             else (loadedBuffer fresh sdd).endPoint * sdd.sampleDescriptor.loopStartPoint)
    ∧ (sdd.sampleDescriptor.loopEndPoint ≠ 0 →
        (loadedBuffer fresh sdd).loopEndPoint
          = min (loadedBuffer fresh sdd).endPoint
              (if sdd.sampleDescriptor.loopEndPoint > 1 then sdd.sampleDescriptor.loopEndPoint
               else (loadedBuffer fresh sdd).endPoint * sdd.sampleDescriptor.loopEndPoint))
    ∧ (sdd.sampleDescriptor.loopStartPoint = 1 / 2 → sdd.sampleDescriptor.loopEndPoint = 9 / 10 →
        sdd.sampleDescriptor.endPoint = 1000 → (loadedBuffer fresh sdd).startPoint ≤ 500 →
        (loadedBuffer fresh sdd).endPoint = 1000
          ∧ (loadedBuffer fresh sdd).loopStartPoint = 500
          ∧ (loadedBuffer fresh sdd).loopEndPoint = 900) := by
  have hstart : (loadedBuffer fresh sdd).loopStartPoint
      = max (loadedBuffer fresh sdd).startPoint
          (if sdd.sampleDescriptor.loopStartPoint > 1 then sdd.sampleDescriptor.loopStartPoint
           else (loadedBuffer fresh sdd).endPoint * sdd.sampleDescriptor.loopStartPoint) := by
    simp only [loadedBuffer, hloop, if_true, resolveLoopPoint]
    exact raise_eq_max _ _
  have hend : sdd.sampleDescriptor.loopEndPoint ≠ 0 →
      (loadedBuffer fresh sdd).loopEndPoint
        = min (loadedBuffer fresh sdd).endPoint
            (if sdd.sampleDescriptor.loopEndPoint > 1 then sdd.sampleDescriptor.loopEndPoint
             else (loadedBuffer fresh sdd).endPoint * sdd.sampleDescriptor.loopEndPoint) := by
    intro h0
    simp only [loadedBuffer, hloop, if_true, resolveLoopPoint, repairedLoopEndPoint, h0, if_false]
    exact lower_eq_min _ _
  refine ⟨loadSampleData_getLast fresh s sdd, hstart, hend, ?_⟩
  intro h1 h2 h3 h4
  have he : (loadedBuffer fresh sdd).endPoint = 1000 := by
    simp [loadedBuffer, h3]
  have h2' : sdd.sampleDescriptor.loopEndPoint ≠ 0 := by
    rw [h2]; norm_num
  refine ⟨he, ?_, ?_⟩
  · rw [hstart, he, h1]
    have : ¬ ((1 / 2 : F) > 1) := by norm_num
    rw [if_neg this]
    have e : (1000 : F) * (1 / 2) = 500 := by norm_num
    rw [e]
    exact max_eq_right h4
  · rw [hend h2', he, h2]
    have : ¬ ((9 / 10 : F) > 1) := by norm_num
    rw [if_neg this]
    have e : (1000 : F) * (9 / 10) = 900 := by norm_num
    rw [e]
    exact min_eq_right (by norm_num)

/-- Witness of C12 (amended): 1001 frames, end point 1000, loop points 0.5 and 0.9. -/
theorem loadSampleData_resolves_loop_points_witness :
    (loopDescriptor 1001 0 1000 (1 / 2) (9 / 10)).sampleDescriptor.isLooping = true
      ∧ (loadedBuffer (wholeSample 1001)
          (loopDescriptor 1001 0 1000 (1 / 2) (9 / 10))).loopStartPoint = 500
      ∧ (loadedBuffer (wholeSample 1001)
          (loopDescriptor 1001 0 1000 (1 / 2) (9 / 10))).loopEndPoint = 900 := by
  have h := (loadSampleData_resolves_loop_points (wholeSample 1001) emptySampler
    (loopDescriptor 1001 0 1000 (1 / 2) (9 / 10)) rfl).2.2.2 rfl rfl rfl
    (by simp [loadedBuffer, loopDescriptor, wholeSample])
  exact ⟨rfl, h.2.1, h.2.2⟩

/-- C13 at the failing input: a looping descriptor with start point 500, end point 1000, loop
start 5000 (a frame index) and loop end 0.1 (a fraction).  The loaded region has loop start
5000, above its end point, and loop end 100, below its start point. -/
theorem loadSampleData_loop_bounds_outside_range :
    (loopDescriptor 1001 500 1000 5000 (1 / 10)).sampleDescriptor.isLooping = true
      ∧ (loadedBuffer (wholeSample 1001) (loopDescriptor 1001 500 1000 5000 (1 / 10))).startPoint
          = 500
      ∧ (loadedBuffer (wholeSample 1001) (loopDescriptor 1001 500 1000 5000 (1 / 10))).endPoint
          = 1000
      ∧ (loadedBuffer (wholeSample 1001)
          (loopDescriptor 1001 500 1000 5000 (1 / 10))).loopStartPoint = 5000
      ∧ (loadedBuffer (wholeSample 1001)
          (loopDescriptor 1001 500 1000 5000 (1 / 10))).loopEndPoint = 100
      ∧ ¬ ((loadedBuffer (wholeSample 1001)
            (loopDescriptor 1001 500 1000 5000 (1 / 10))).loopStartPoint
          ≤ (loadedBuffer (wholeSample 1001)
              (loopDescriptor 1001 500 1000 5000 (1 / 10))).endPoint)
      ∧ ¬ ((loadedBuffer (wholeSample 1001)
            (loopDescriptor 1001 500 1000 5000 (1 / 10))).startPoint
          ≤ (loadedBuffer (wholeSample 1001)
              (loopDescriptor 1001 500 1000 5000 (1 / 10))).loopEndPoint) := by
  have h1 : (loadedBuffer (wholeSample 1001)
      (loopDescriptor 1001 500 1000 5000 (1 / 10))).startPoint = 500 := by
    simp [loadedBuffer, loopDescriptor]
  have h2 : (loadedBuffer (wholeSample 1001)
      (loopDescriptor 1001 500 1000 5000 (1 / 10))).endPoint = 1000 := by
    simp [loadedBuffer, loopDescriptor]
  have h3 : (loadedBuffer (wholeSample 1001)
      (loopDescriptor 1001 500 1000 5000 (1 / 10))).loopStartPoint = 5000 := by
    simp [loadedBuffer, loopDescriptor, resolveLoopPoint]
    norm_num
  have h4 : (loadedBuffer (wholeSample 1001)
      (loopDescriptor 1001 500 1000 5000 (1 / 10))).loopEndPoint = 100 := by
    simp [loadedBuffer, loopDescriptor, resolveLoopPoint, repairedLoopEndPoint]
    norm_num
  refine ⟨rfl, h1, h2, h3, h4, ?_, ?_⟩
  · rw [h3, h2]; norm_num
  · rw [h1, h4]; norm_num

/-- C14 (as stated) fails: a descriptor with zero frames and three channels is not rejected;
`loadSampleData` appends a region to the empty repository. -/
theorem loadSampleData_accepts_malformed_descriptor :
    malformedDescriptor.sampleCount = 0 ∧ malformedDescriptor.channelCount = 3
      ∧ emptySampler.sampleBufferList = []
      ∧ (loadSampleData (wholeSample 0) emptySampler malformedDescriptor).sampleBufferList
          = [loadedBuffer (wholeSample 0) malformedDescriptor]
      ∧ (loadSampleData (wholeSample 0) emptySampler malformedDescriptor).sampleBufferList
          ≠ emptySampler.sampleBufferList := by
  refine ⟨rfl, rfl, rfl, rfl, ?_⟩
  simp [loadSampleData, emptySampler]

/-- C14 (amended): `loadSampleData` validates nothing: for every descriptor, whatever its
frame count and channel count (zero frames and channel counts other than 1 and 2 included),
exactly one region is appended at the end of the repository, the regions already loaded are
kept, and no other member of the sampler changes. -/
theorem loadSampleData_always_appends {F : Type} [LinearOrderedField F] (fresh : FreshBuffer F)
    (s : CoreSampler F) (sdd : SampleDataDescriptor F) :
    (loadSampleData fresh s sdd).sampleBufferList
        = s.sampleBufferList ++ [loadedBuffer fresh sdd]
    ∧ (loadSampleData fresh s sdd).sampleBufferList.length = s.sampleBufferList.length + 1
    ∧ (loadedBuffer fresh sdd).sampleCount = sdd.sampleCount
    ∧ (loadedBuffer fresh sdd).channelCount = sdd.channelCount
    ∧ (loadSampleData fresh s sdd).keyMap = s.keyMap
    ∧ (loadSampleData fresh s sdd).isKeyMapValid = s.isKeyMapValid
    ∧ (loadSampleData fresh s sdd).voice = s.voice
    ∧ (loadSampleData fresh s sdd).tuningTable = s.tuningTable := by
  refine ⟨rfl, ?_, rfl, rfl, rfl, rfl, rfl, rfl⟩
  simp [loadSampleData]

/-- C16: after `unloadAllSamples`, from any state (a state with an empty repository
included), the key map is marked invalid, the repository is empty and each of the 128
key-map entries is empty; a second call changes nothing; the voice slots, the tuning table
and the remaining members are as before. -/
theorem unloadAllSamples_clears {F : Type} (s : CoreSampler F) :
    (unloadAllSamples s).isKeyMapValid = false
    ∧ (unloadAllSamples s).sampleBufferList = []
    ∧ (∀ n, n < MIDI_NOTENUMBERS → (unloadAllSamples s).keyMap n = [])
    ∧ unloadAllSamples (unloadAllSamples s) = unloadAllSamples s
    ∧ (unloadAllSamples s).voice = s.voice
    ∧ (unloadAllSamples s).tuningTable = s.tuningTable
    ∧ (unloadAllSamples s).pedalLogic = s.pedalLogic
    ∧ (unloadAllSamples s).stoppingAllVoices = s.stoppingAllVoices
    ∧ (unloadAllSamples s).isMonophonic = s.isMonophonic := by
  have hk : clearKeyMap (clearKeyMap s.keyMap) = clearKeyMap s.keyMap := by
    funext n
    rw [clearKeyMap_apply, clearKeyMap_apply]
    split <;> rfl
  refine ⟨rfl, rfl, ?_, ?_, rfl, rfl, rfl, rfl, rfl⟩
  · intro n hn
    simp only [unloadAllSamples]
    rw [clearKeyMap_apply, if_pos hn]
  · simp only [unloadAllSamples, hk]

/-- C19 (as stated) fails for a sample of two frames: with end point 5 and loop end 0 the
repaired value `sampleCount - 1 = 1` is not above 1, so it is resolved as the fraction 1 of
the end point; the loop end of the region is 5, not `min(1, 5) = 1`. -/
theorem loadSampleData_repair_two_frames :
    (loopDescriptor 2 0 5 0 0).sampleDescriptor.isLooping = true
      ∧ (1 : Int) ≤ (loopDescriptor 2 0 5 0 0).sampleCount
      ∧ (loopDescriptor 2 0 5 0 0).sampleDescriptor.loopEndPoint = 0
      ∧ repairedLoopEndPoint (loopDescriptor 2 0 5 0 0) = 1
      ∧ (loadedBuffer (wholeSample 2) (loopDescriptor 2 0 5 0 0)).endPoint = 5
      ∧ (loadedBuffer (wholeSample 2) (loopDescriptor 2 0 5 0 0)).loopEndPoint = 5
      ∧ (loadedBuffer (wholeSample 2) (loopDescriptor 2 0 5 0 0)).loopEndPoint
          ≠ min ((((loopDescriptor 2 0 5 0 0).sampleCount - 1 : Int) : ℚ))
              (loadedBuffer (wholeSample 2) (loopDescriptor 2 0 5 0 0)).endPoint := by
  have hf : floatOfInt 1 = 1 := by decide
  have hr : repairedLoopEndPoint (loopDescriptor 2 0 5 0 0) = 1 := by
    simp [repairedLoopEndPoint, loopDescriptor, hf]
  have he : (loadedBuffer (wholeSample 2) (loopDescriptor 2 0 5 0 0)).endPoint = 5 := by
    simp [loadedBuffer, loopDescriptor]
  have hl : (loadedBuffer (wholeSample 2) (loopDescriptor 2 0 5 0 0)).loopEndPoint = 5 := by
    simp [loadedBuffer, loopDescriptor, repairedLoopEndPoint, resolveLoopPoint, hf]
  refine ⟨rfl, by decide, rfl, hr, he, hl, ?_⟩
  rw [hl, he]
  simp [loopDescriptor]

/-- C19 (amended): for every looping descriptor with `sampleCount >= 1` whose loop end is
exactly 0, the loop end is repaired to `float(sampleCount - 1)` before resolution; that value
is `sampleCount - 1` itself up to 16777217 frames and `sampleCount - 1` rounded to 24
significant bits above.  The loop end of the region equals
`min(float(sampleCount - 1), endPoint)` provided `sampleCount` is not 2 or the end point of
the region is at most 1; for `sampleCount = 2` the repaired value 1 is resolved as a fraction
and the loop end of the region is its end point. -/
theorem loadSampleData_repairs_zero_loop_end {F : Type} [LinearOrderedField F]
    (fresh : FreshBuffer F) (sdd : SampleDataDescriptor F)
    (hloop : sdd.sampleDescriptor.isLooping = true) (hcount : 1 ≤ sdd.sampleCount)
    (hzero : sdd.sampleDescriptor.loopEndPoint = 0) :
    repairedLoopEndPoint sdd = ((floatOfInt (sdd.sampleCount - 1) : Int) : F)
    ∧ (sdd.sampleCount ≤ 16777217 → floatOfInt (sdd.sampleCount - 1) = sdd.sampleCount - 1)
    ∧ ((sdd.sampleCount ≠ 2 ∨ (loadedBuffer fresh sdd).endPoint ≤ 1) →
        (loadedBuffer fresh sdd).loopEndPoint
          = min (((floatOfInt (sdd.sampleCount - 1) : Int) : F))
              (loadedBuffer fresh sdd).endPoint)
    ∧ ((sdd.sampleCount ≤ 16777217
          ∧ (sdd.sampleCount ≠ 2 ∨ (loadedBuffer fresh sdd).endPoint ≤ 1)) →
        (loadedBuffer fresh sdd).loopEndPoint
          = min (((sdd.sampleCount - 1 : Int) : F)) (loadedBuffer fresh sdd).endPoint)
    ∧ (sdd.sampleCount = 2 →
        (loadedBuffer fresh sdd).loopEndPoint = (loadedBuffer fresh sdd).endPoint) := by
  have hr : repairedLoopEndPoint sdd = ((floatOfInt (sdd.sampleCount - 1) : Int) : F) := by
    simp [repairedLoopEndPoint, hzero]
  have hexact : sdd.sampleCount ≤ 16777217 →
      floatOfInt (sdd.sampleCount - 1) = sdd.sampleCount - 1 := by
    intro hle
    apply floatOfInt_of_le
    have h24 : (2 : Nat) ^ 24 = 16777216 := by norm_num
    rw [h24]
    omega
  have hl : (loadedBuffer fresh sdd).loopEndPoint
      = min (loadedBuffer fresh sdd).endPoint
          (resolveLoopPoint (loadedBuffer fresh sdd).endPoint
            ((floatOfInt (sdd.sampleCount - 1) : Int) : F)) := by
    simp only [loadedBuffer, hloop, if_true, hr]
    exact lower_eq_min _ _
  have hmin : (sdd.sampleCount ≠ 2 ∨ (loadedBuffer fresh sdd).endPoint ≤ 1) →
      (loadedBuffer fresh sdd).loopEndPoint
        = min (((floatOfInt (sdd.sampleCount - 1) : Int) : F))
            (loadedBuffer fresh sdd).endPoint := by
    intro h
    rw [hl]
    by_cases h1 : sdd.sampleCount = 1
    · have e : ((floatOfInt (sdd.sampleCount - 1) : Int) : F) = 0 := by
        rw [hexact (by omega), h1]; norm_num
      rw [e]
      simp [resolveLoopPoint, min_comm]
    · by_cases h2 : sdd.sampleCount = 2
      · have e : ((floatOfInt (sdd.sampleCount - 1) : Int) : F) = 1 := by
          rw [hexact (by omega), h2]; norm_num
        have hle : (loadedBuffer fresh sdd).endPoint ≤ 1 := by
          rcases h with h | h
          · exact absurd h2 h
          · exact h
        rw [e]
        simp [resolveLoopPoint, hle]
      · have h3 : (2 : Int) ≤ floatOfInt (sdd.sampleCount - 1) := by
          have := floatOfInt_gt_one (sdd.sampleCount - 1) (by omega)
          omega
        have h3' : (1 : F) < ((floatOfInt (sdd.sampleCount - 1) : Int) : F) := by
          have : ((2 : Int) : F) ≤ ((floatOfInt (sdd.sampleCount - 1) : Int) : F) :=
            Int.cast_le.mpr h3
          have h12 : (1 : F) < ((2 : Int) : F) := by norm_num
          exact lt_of_lt_of_le h12 this
        simp only [resolveLoopPoint, gt_iff_lt, h3', if_true]
        exact min_comm _ _
  refine ⟨hr, hexact, hmin, ?_, ?_⟩
  · rintro ⟨hle, h⟩
    rw [hmin h, hexact hle]
  · intro h2
    have e : ((floatOfInt (sdd.sampleCount - 1) : Int) : F) = 1 := by
      rw [hexact (by omega), h2]; norm_num
    rw [hl, e]
    simp [resolveLoopPoint]

/-- Witness of C19 (amended): 1001 frames, end point 1000, loop end 0. -/
theorem loadSampleData_repairs_zero_loop_end_witness :
    (loopDescriptor 1001 0 1000 (1 / 2) 0).sampleDescriptor.isLooping = true
      ∧ (1 : Int) ≤ (loopDescriptor 1001 0 1000 (1 / 2) 0).sampleCount
      ∧ (loopDescriptor 1001 0 1000 (1 / 2) 0).sampleDescriptor.loopEndPoint = 0
      ∧ (loadedBuffer (wholeSample 1001) (loopDescriptor 1001 0 1000 (1 / 2) 0)).loopEndPoint
          = min ((((loopDescriptor 1001 0 1000 (1 / 2) 0).sampleCount - 1 : Int) : ℚ))
              (loadedBuffer (wholeSample 1001) (loopDescriptor 1001 0 1000 (1 / 2) 0)).endPoint :=
  ⟨rfl, by decide, rfl,
    (loadSampleData_repairs_zero_loop_end (wholeSample 1001)
      (loopDescriptor 1001 0 1000 (1 / 2) 0) rfl (by decide) rfl).2.2.2.1
      ⟨by decide, Or.inl (by decide)⟩⟩

/-- The repair above `2^24` frames: with 16777218 frames, end point 20000000 and loop end 0
the repaired value is `float(16777217) = 16777216`, which becomes the loop end of the
region; it is not `sampleCount - 1 = 16777217`. -/
theorem loadSampleData_repair_rounds_large_count :
    floatOfInt ((loopDescriptor 16777218 0 20000000 0 0).sampleCount - 1) = 16777216
      ∧ repairedLoopEndPoint (loopDescriptor 16777218 0 20000000 0 0) = 16777216
      ∧ (loadedBuffer (wholeSample 16777218)
          (loopDescriptor 16777218 0 20000000 0 0)).endPoint = 20000000
      ∧ (loadedBuffer (wholeSample 16777218)
          (loopDescriptor 16777218 0 20000000 0 0)).loopEndPoint = 16777216 := by
  have hf : floatOfInt 16777217 = 16777216 := by decide
  have hc : floatOfInt ((loopDescriptor 16777218 0 20000000 0 0).sampleCount - 1)
      = 16777216 := hf
  have hr : repairedLoopEndPoint (loopDescriptor 16777218 0 20000000 0 0) = 16777216 := by
    simp [repairedLoopEndPoint, loopDescriptor, hf]
  have he : (loadedBuffer (wholeSample 16777218)
      (loopDescriptor 16777218 0 20000000 0 0)).endPoint = 20000000 := by
    rw [loadedBuffer_endPoint]
    simp [loopDescriptor]
  have hl : (loadedBuffer (wholeSample 16777218)
      (loopDescriptor 16777218 0 20000000 0 0)).loopEndPoint
        = if resolveLoopPoint 20000000 16777216 > (20000000 : ℚ) then 20000000
          else resolveLoopPoint 20000000 16777216 := by
    rw [← he, ← hr]
    rfl
  refine ⟨hc, hr, he, ?_⟩
  rw [hl]
  norm_num [resolveLoopPoint]

end CoreSampler

/-! ## Rendering: auxiliary facts -/

namespace CoreSampler

/-- The method `stop` changes neither the overall gain nor the overall pan. -/
theorem stop_gain_pan {F : Type} (s : CoreSampler F) (n : Nat) (immediate : Bool) :
    (stop s n immediate).overallGain = s.overallGain
      ∧ (stop s n immediate).overallPan = s.overallPan := by
  simp only [stop]
  split
  · split <;> simp
  · simp

/-- One step of the voice loop of `render` changes neither the overall gain, nor the overall
pan, nor the gate, nor the mode. -/
theorem renderVoice_settings {F : Type} [LinearOrderedField F] (engine : VoiceEngine F)
    (sampleCount : Nat) (st : RenderPass F) (i : Nat) :
    (renderVoice engine sampleCount st i).sampler.overallGain = st.sampler.overallGain
      ∧ (renderVoice engine sampleCount st i).sampler.overallPan = st.sampler.overallPan
      ∧ (renderVoice engine sampleCount st i).sampler.stoppingAllVoices
          = st.sampler.stoppingAllVoices
      ∧ (renderVoice engine sampleCount st i).sampler.isMonophonic = st.sampler.isMonophonic := by
  simp only [renderVoice]
  split
  · split
    · simp only [stopNote, if_true]
      refine ⟨(stop_gain_pan _ _ _).1, (stop_gain_pan _ _ _).2, (stop_frame _ _ _).2.2.2.1,
        (stop_frame _ _ _).2.1⟩
    · exact ⟨rfl, rfl, rfl, rfl⟩
  · exact ⟨rfl, rfl, rfl, rfl⟩

/-- The voice loop of `render` changes neither the overall gain, nor the overall pan, nor
the gate, nor the mode. -/
theorem renderVoices_settings {F : Type} [LinearOrderedField F] (engine : VoiceEngine F)
    (s : CoreSampler F) (sampleCount : Nat) (outLeft outRight : Nat → F) :
    (renderVoices engine s sampleCount outLeft outRight).sampler.overallGain = s.overallGain
      ∧ (renderVoices engine s sampleCount outLeft outRight).sampler.overallPan = s.overallPan
      ∧ (renderVoices engine s sampleCount outLeft outRight).sampler.stoppingAllVoices
          = s.stoppingAllVoices
      ∧ (renderVoices engine s sampleCount outLeft outRight).sampler.isMonophonic
          = s.isMonophonic := by
  have h : ∀ (l : List Nat) (st : RenderPass F),
      (l.foldl (renderVoice engine sampleCount) st).sampler.overallGain = st.sampler.overallGain
        ∧ (l.foldl (renderVoice engine sampleCount) st).sampler.overallPan
            = st.sampler.overallPan
        ∧ (l.foldl (renderVoice engine sampleCount) st).sampler.stoppingAllVoices
            = st.sampler.stoppingAllVoices
        ∧ (l.foldl (renderVoice engine sampleCount) st).sampler.isMonophonic
            = st.sampler.isMonophonic := by
    intro l
    induction l with
    | nil => intro st; exact ⟨rfl, rfl, rfl, rfl⟩
    | cons i t ih =>
      intro st
      obtain ⟨h1, h2, h3, h4⟩ := ih (renderVoice engine sampleCount st i)
      obtain ⟨g1, g2, g3, g4⟩ := renderVoice_settings engine sampleCount st i
      exact ⟨h1.trans g1, h2.trans g2, h3.trans g3, h4.trans g4⟩
  unfold renderVoices
  exact h (List.range MAX_POLYPHONY) _

end CoreSampler

/-! ## Claims on rendering -/

namespace CoreSampler

/-- C15: the master pan law of `render`.  The left factor is 1 for `pan <= 0` and `1 - pan`
otherwise, the right factor is 1 for `pan >= 0` and `1 + pan` otherwise; pan 0 gives (1, 1),
pan 1 gives (0, 1), pan -1 gives (1, 0); for every pan in [-1, 1] both factors lie in [0, 1]
and one of them is 1; an overall gain of 0 dB gives the linear gain `powf(10, 0)`, which is 1
for a `powf` with `powf(10, 0) = 1`; and over the rendered frames `render` multiplies the
mixed left and right buffers by the linear gain and by the left and right factor. -/
theorem render_gain_and_pan {F : Type} [LinearOrderedField F] (powf : F → F → F)
    (engine : VoiceEngine F) (s : CoreSampler F) (channelCount sampleCount : Nat)
    (outLeft outRight : Nat → F) :
    (∀ pan : F, leftPan pan = (if pan ≤ 0 then 1 else 1 - pan)
        ∧ rightPan pan = (if pan ≥ 0 then 1 else 1 + pan))
    ∧ (leftPan (0 : F) = 1 ∧ rightPan (0 : F) = 1)
    ∧ (leftPan (1 : F) = 0 ∧ rightPan (1 : F) = 1)
    ∧ (leftPan (-1 : F) = 1 ∧ rightPan (-1 : F) = 0)
    ∧ (∀ pan : F, -1 ≤ pan → pan ≤ 1 →
        0 ≤ leftPan pan ∧ leftPan pan ≤ 1 ∧ 0 ≤ rightPan pan ∧ rightPan pan ≤ 1
          ∧ (leftPan pan = 1 ∨ rightPan pan = 1))
    ∧ overallGainLinear powf 0 = powf 10 0
    ∧ (powf 10 0 = 1 → overallGainLinear powf 0 = 1)
    ∧ (∀ k, k < sampleCount →
        (render powf engine s channelCount sampleCount outLeft outRight).pOutLeft k
            = (renderVoices engine s sampleCount outLeft outRight).pOutLeft k
                * overallGainLinear powf s.overallGain * leftPan s.overallPan
          ∧ (render powf engine s channelCount sampleCount outLeft outRight).pOutRight k
              = (renderVoices engine s sampleCount outLeft outRight).pOutRight k
                  * overallGainLinear powf s.overallGain * rightPan s.overallPan) := by
  have hg : overallGainLinear powf 0 = powf 10 0 := by
    simp [overallGainLinear]
  refine ⟨fun pan => ⟨rfl, rfl⟩, ?_, ?_, ?_, ?_, hg, fun h => hg.trans h, ?_⟩
  · simp [leftPan, rightPan]
  · simp [leftPan, rightPan]
  · simp [leftPan, rightPan]
  · intro pan h1 h2
    by_cases hp : pan ≤ 0
    · by_cases hq : pan ≥ 0
      · have h0 : pan = 0 := le_antisymm hp hq
        subst h0
        simp [leftPan, rightPan]
      · have hn : pan < 0 := lt_of_not_ge hq
        have hl : leftPan pan = 1 := if_pos hp
        have hr : rightPan pan = 1 + pan := if_neg hq
        rw [hl, hr]
        exact ⟨zero_le_one, le_refl 1, by linarith, by linarith, Or.inl rfl⟩
    · have hpos : 0 < pan := lt_of_not_ge hp
      have hq : pan ≥ 0 := le_of_lt hpos
      have hl : leftPan pan = 1 - pan := if_neg hp
      have hr : rightPan pan = 1 := if_pos hq
      rw [hl, hr]
      exact ⟨by linarith, by linarith, zero_le_one, le_refl 1, Or.inr rfl⟩
  · intro k hk
    obtain ⟨e1, e2, _, _⟩ := renderVoices_settings engine s sampleCount outLeft outRight
    have hL : (render powf engine s channelCount sampleCount outLeft outRight).pOutLeft k
        = (renderVoices engine s sampleCount outLeft outRight).pOutLeft k
            * overallGainLinear powf
                (renderVoices engine s sampleCount outLeft outRight).sampler.overallGain
            * leftPan (renderVoices engine s sampleCount outLeft outRight).sampler.overallPan :=
      if_pos hk
    have hR : (render powf engine s channelCount sampleCount outLeft outRight).pOutRight k
        = (renderVoices engine s sampleCount outLeft outRight).pOutRight k
            * overallGainLinear powf
                (renderVoices engine s sampleCount outLeft outRight).sampler.overallGain
            * rightPan (renderVoices engine s sampleCount outLeft outRight).sampler.overallPan :=
      if_pos hk
    rw [hL, hR, e1, e2]
    exact ⟨rfl, rfl⟩

/-- Witness of C15: the stand-in power satisfies `powf(10, 0) = 1`, and the linear gain for
0 dB is 1. -/
theorem render_gain_and_pan_witness :
    octavePow 10 0 = 1 ∧ overallGainLinear octavePow 0 = 1 :=
  have h : octavePow 10 0 = 1 := by simp [octavePow]
  ⟨h, (render_gain_and_pan octavePow ⟨fun _ => false, fun _ _ => (0, 0)⟩ emptySampler 2 0
    (fun _ => 0) (fun _ => 0)).2.2.2.2.2.2.1 h⟩

end CoreSampler

/-! ## Sample data: auxiliary facts -/

namespace CoreSampler

/-- The de-interleaving loop for two channels after `m` of `n` frames: the pointer has moved
by `2 * m`, the buffer has kept its length, index `k < m` holds the value `2 * k` behind the
pointer and index `n + j`, `j < m`, holds the value `2 * j + 1`; the other samples are
untouched. -/
theorem interleaved_fold {F : Type} (data : Nat → F) (n : Nat) (samples : List F) (m : Nat)
    (hm : m ≤ n) :
    ((List.range m).foldl
        (fun (st : List F × Nat) i =>
          (setData (setData st.1 i (data st.2)) (n + i) (data (st.2 + 1)), st.2 + 2))
        (samples, 0)).2 = 2 * m
    ∧ ((List.range m).foldl
        (fun (st : List F × Nat) i =>
          (setData (setData st.1 i (data st.2)) (n + i) (data (st.2 + 1)), st.2 + 2))
        (samples, 0)).1.length = samples.length
    ∧ ∀ k,
        ((List.range m).foldl
          (fun (st : List F × Nat) i =>
            (setData (setData st.1 i (data st.2)) (n + i) (data (st.2 + 1)), st.2 + 2))
          (samples, 0)).1[k]?
        = if k < samples.length then
            (if k < m then some (data (2 * k))
             else if n ≤ k ∧ k < n + m then some (data (2 * (k - n) + 1))
             else samples[k]?)
          else none := by
  induction m with
  | zero =>
    refine ⟨rfl, rfl, fun k => ?_⟩
    simp only [List.range_zero, List.foldl_nil]
    by_cases hk : k < samples.length
    · have h2 : ¬ (n ≤ k ∧ k < n + 0) := by omega
      rw [if_pos hk, if_neg (Nat.not_lt_zero k), if_neg h2]
    · rw [if_neg hk, List.getElem?_eq_none (not_lt.mp hk)]
  | succ m ih =>
    obtain ⟨ih1, ih2, ih3⟩ := ih (by omega)
    rw [List.range_succ, List.foldl_append]
    simp only [List.foldl_cons, List.foldl_nil]
    generalize (List.range m).foldl
      (fun (st : List F × Nat) i =>
        (setData (setData st.1 i (data st.2)) (n + i) (data (st.2 + 1)), st.2 + 2))
      (samples, 0) = st at ih1 ih2 ih3
    refine ⟨by rw [ih1]; omega, by simp [setData, ih2], fun k => ?_⟩
    simp only [setData]
    rw [List.getElem?_set, List.length_set, ih2, ih1]
    by_cases h1 : n + m = k
    · subst h1
      rw [if_pos rfl]
      by_cases hL : n + m < samples.length
      · have e : 2 * (n + m - n) + 1 = 2 * m + 1 := by omega
        rw [if_pos hL, if_pos hL, if_neg (by omega), if_pos (by omega), e]
      · rw [if_neg hL, if_neg hL]
    · rw [if_neg h1, List.getElem?_set, ih2]
      by_cases h2 : m = k
      · subst h2
        rw [if_pos rfl]
        by_cases hL : m < samples.length
        · rw [if_pos hL, if_pos hL, if_pos (by omega)]
        · rw [if_neg hL, if_neg hL]
      · rw [if_neg h2, ih3 k]
        by_cases hL : k < samples.length
        · rw [if_pos hL, if_pos hL]
          by_cases h3 : k < m
          · rw [if_pos h3, if_pos (by omega)]
          · have h4 : ¬ k < m + 1 := by omega
            rw [if_neg h3, if_neg h4]
            by_cases h5 : n ≤ k ∧ k < n + m
            · rw [if_pos h5, if_pos (by omega)]
            · rw [if_neg h5, if_neg (by omega)]
        · rw [if_neg hL, if_neg hL]

/-- The planar copy loop after `m` values: the pointer has moved by `m`, the buffer has kept
its length and index `k < m` holds the `k`-th value behind the pointer; the other samples
are untouched. -/
theorem planar_fold {F : Type} (data : Nat → F) (samples : List F) (m : Nat) :
    ((List.range m).foldl
        (fun (st : List F × Nat) i => (setData st.1 i (data st.2), st.2 + 1))
        (samples, 0)).2 = m
    ∧ ((List.range m).foldl
        (fun (st : List F × Nat) i => (setData st.1 i (data st.2), st.2 + 1))
        (samples, 0)).1.length = samples.length
    ∧ ∀ k,
        ((List.range m).foldl
          (fun (st : List F × Nat) i => (setData st.1 i (data st.2), st.2 + 1))
          (samples, 0)).1[k]?
        = if k < samples.length then (if k < m then some (data k) else samples[k]?)
          else none := by
  induction m with
  | zero =>
    refine ⟨rfl, rfl, fun k => ?_⟩
    simp only [List.range_zero, List.foldl_nil]
    by_cases hk : k < samples.length
    · rw [if_pos hk, if_neg (Nat.not_lt_zero k)]
    · rw [if_neg hk, List.getElem?_eq_none (not_lt.mp hk)]
  | succ m ih =>
    obtain ⟨ih1, ih2, ih3⟩ := ih
    rw [List.range_succ, List.foldl_append]
    simp only [List.foldl_cons, List.foldl_nil]
    generalize (List.range m).foldl
      (fun (st : List F × Nat) i => (setData st.1 i (data st.2), st.2 + 1))
      (samples, 0) = st at ih1 ih2 ih3
    refine ⟨by rw [ih1], by simp [setData, ih2], fun k => ?_⟩
    simp only [setData]
    rw [List.getElem?_set, ih2, ih1]
    by_cases h2 : m = k
    · subst h2
      rw [if_pos rfl]
      by_cases hL : m < samples.length
      · rw [if_pos hL, if_pos hL, if_pos (by omega)]
      · rw [if_neg hL, if_neg hL]
    · rw [if_neg h2, ih3 k]
      by_cases hL : k < samples.length
      · rw [if_pos hL, if_pos hL]
        by_cases h3 : k < m
        · rw [if_pos h3, if_pos (by omega)]
        · rw [if_neg h3, if_neg (by omega)]
      · rw [if_neg hL, if_neg hL]

/-- The sample memory allocated by `init` has `channelCount * sampleCount` samples. -/
theorem allocateSamples_length {F : Type} (fresh : FreshBuffer F) (channelCount sampleCount : Int) :
    (allocateSamples fresh channelCount sampleCount).length
      = (channelCount * sampleCount).toNat := by
  simp [allocateSamples]

/-- The samples of a region loaded from interleaved two-channel data of `n` frames. -/
theorem loadedBuffer_stereo_interleaved {F : Type} [LinearOrderedField F]
    (fresh : FreshBuffer F) (sdd : SampleDataDescriptor F) (n : Nat)
    (hcount : sdd.sampleCount = (n : Int)) (hchannels : sdd.channelCount = 2)
    (hinter : sdd.isInterleaved = true) (k : Nat) :
    (loadedBuffer fresh sdd).samples[k]?
      = if k < n then some (sdd.data (2 * k))
        else if k < 2 * n then some (sdd.data (2 * (k - n) + 1))
        else none := by
  have hstep : (fun (st : List F × Nat) (i : Nat) =>
        if sdd.channelCount > 1 then
          (setData (setData st.1 i (sdd.data st.2)) (sdd.sampleCount + (i : Int)).toNat
            (sdd.data (st.2 + 1)), st.2 + 2)
        else (setData st.1 i (sdd.data st.2), st.2 + 1))
      = (fun (st : List F × Nat) (i : Nat) =>
          (setData (setData st.1 i (sdd.data st.2)) (n + i) (sdd.data (st.2 + 1)), st.2 + 2)) := by
    funext st i
    have e : (sdd.sampleCount + (i : Int)).toNat = n + i := by
      rw [hcount]; omega
    rw [if_pos (by rw [hchannels]; decide), e]
  have hlen : (allocateSamples fresh sdd.channelCount sdd.sampleCount).length = 2 * n := by
    rw [allocateSamples_length, hcount, hchannels]
    omega
  have hn : sdd.sampleCount.toNat = n := by rw [hcount]; omega
  have h := (interleaved_fold sdd.data n
    (allocateSamples fresh sdd.channelCount sdd.sampleCount) n (le_refl n)).2.2 k
  simp only [loadedBuffer, hinter, if_true, copyInterleaved, hstep, hn]
  rw [h, hlen]
  by_cases h1 : k < n
  · rw [if_pos (by omega), if_pos h1, if_pos h1]
  · by_cases h2 : k < 2 * n
    · rw [if_pos h2, if_neg h1, if_pos (by omega), if_neg h1, if_pos h2]
    · rw [if_neg h2, if_neg h1, if_neg h2]

/-- The samples of a region loaded from planar data: the values behind the pointer, in
order. -/
theorem loadedBuffer_planar {F : Type} [LinearOrderedField F]
    (fresh : FreshBuffer F) (sdd : SampleDataDescriptor F)
    (hplanar : sdd.isInterleaved = false) (k : Nat) :
    (loadedBuffer fresh sdd).samples[k]?
      = if k < (sdd.channelCount * sdd.sampleCount).toNat then some (sdd.data k) else none := by
  have h := planar_fold sdd.data (allocateSamples fresh sdd.channelCount sdd.sampleCount)
    (sdd.channelCount * sdd.sampleCount).toNat
  simp only [loadedBuffer, hplanar, Bool.false_eq_true, if_false, copyPlanar]
  rw [h.2.2 k, allocateSamples_length]
  by_cases h1 : k < (sdd.channelCount * sdd.sampleCount).toNat
  · rw [if_pos h1, if_pos h1, if_pos h1]
  · rw [if_neg h1, if_neg h1]

/-- The samples of a region loaded from one-channel data marked as interleaved: the values
behind the pointer, in order. -/
theorem loadedBuffer_mono_interleaved {F : Type} [LinearOrderedField F]
    (fresh : FreshBuffer F) (sdd : SampleDataDescriptor F) (n : Nat)
    (hcount : sdd.sampleCount = (n : Int)) (hchannels : sdd.channelCount = 1)
    (hinter : sdd.isInterleaved = true) (k : Nat) :
    (loadedBuffer fresh sdd).samples[k]? = if k < n then some (sdd.data k) else none := by
  have hstep : (fun (st : List F × Nat) (i : Nat) =>
        if sdd.channelCount > 1 then
          (setData (setData st.1 i (sdd.data st.2)) (sdd.sampleCount + (i : Int)).toNat
            (sdd.data (st.2 + 1)), st.2 + 2)
        else (setData st.1 i (sdd.data st.2), st.2 + 1))
      = (fun (st : List F × Nat) (i : Nat) => (setData st.1 i (sdd.data st.2), st.2 + 1)) := by
    funext st i
    rw [if_neg (by rw [hchannels]; decide)]
  have hlen : (allocateSamples fresh sdd.channelCount sdd.sampleCount).length = n := by
    rw [allocateSamples_length, hcount, hchannels]
    omega
  have hn : sdd.sampleCount.toNat = n := by rw [hcount]; omega
  have h := (planar_fold sdd.data (allocateSamples fresh sdd.channelCount sdd.sampleCount) n).2.2 k
  simp only [loadedBuffer, hinter, if_true, copyInterleaved, hstep, hn]
  rw [h, hlen]
  by_cases h1 : k < n
  · rw [if_pos h1, if_pos h1, if_pos h1]
  · rw [if_neg h1, if_neg h1]

end CoreSampler

/-! ## Claims on sample data -/

namespace CoreSampler

/-- Two descriptors that differ only in the layout flag and the data yield the same region
as soon as they yield the same samples. -/
theorem loadedBuffer_congr {F : Type} [LinearOrderedField F] (fresh : FreshBuffer F)
    (sdd sdd' : SampleDataDescriptor F)
    (h1 : sdd'.sampleDescriptor = sdd.sampleDescriptor) (h2 : sdd'.sampleRate = sdd.sampleRate)
    (h3 : sdd'.channelCount = sdd.channelCount) (h4 : sdd'.sampleCount = sdd.sampleCount)
    (h5 : (loadedBuffer fresh sdd').samples = (loadedBuffer fresh sdd).samples) :
    loadedBuffer fresh sdd' = loadedBuffer fresh sdd := by
  simp only [loadedBuffer] at h5
  rw [h3, h4] at h5
  simp only [loadedBuffer, repairedLoopEndPoint, h1, h2, h3, h4]
  rw [h5]

/-- C20: `loadSampleData` stores the sample data planar.  For interleaved two-channel input
`[L0, R0, L1, R1, ...]` of `n` frames the buffer has `2 * n` samples, index `i` holds `L_i`
and index `n + i` holds `R_i` for every `i < n`; loading the same audio in planar layout
(`L` followed by `R`) yields the identical region; and for one channel the interleaved and
the planar layout yield the identical region. -/
theorem loadSampleData_stores_planar {F : Type} [LinearOrderedField F] (fresh : FreshBuffer F)
    (s : CoreSampler F) (sdd : SampleDataDescriptor F) (n : Nat)
    (hcount : sdd.sampleCount = (n : Int)) :
    (loadSampleData fresh s sdd).sampleBufferList.getLast? = some (loadedBuffer fresh sdd)
    ∧ (sdd.channelCount = 2 → sdd.isInterleaved = true →
        (loadedBuffer fresh sdd).samples.length = 2 * n
          ∧ ∀ i, i < n →
              (loadedBuffer fresh sdd).samples[i]? = some (sdd.data (2 * i))
                ∧ (loadedBuffer fresh sdd).samples[n + i]? = some (sdd.data (2 * i + 1)))
    ∧ (sdd.channelCount = 2 → sdd.isInterleaved = true →
        loadedBuffer fresh
            { sdd with
              isInterleaved := false,
              data := fun k => if k < n then sdd.data (2 * k) else sdd.data (2 * (k - n) + 1) }
          = loadedBuffer fresh sdd)
    ∧ (sdd.channelCount = 1 →
        loadedBuffer fresh { sdd with isInterleaved := true }
          = loadedBuffer fresh { sdd with isInterleaved := false }) := by
  refine ⟨loadSampleData_getLast fresh s sdd, ?_, ?_, ?_⟩
  · intro hc hi
    have hk := loadedBuffer_stereo_interleaved fresh sdd n hcount hc hi
    refine ⟨?_, fun i hin => ⟨?_, ?_⟩⟩
    · have h1 := hk (2 * n)
      rw [if_neg (by omega), if_neg (by omega), List.getElem?_eq_none_iff] at h1
      by_cases hn : n = 0
      · subst hn; omega
      · have h2 := hk (2 * n - 1)
        rw [if_neg (by omega), if_pos (by omega)] at h2
        have h3 : 2 * n - 1 < (loadedBuffer fresh sdd).samples.length := by
          by_contra hcon
          rw [List.getElem?_eq_none (not_lt.mp hcon)] at h2
          exact Option.noConfusion h2
        omega
    · rw [hk i, if_pos hin]
    · have e : 2 * (n + i - n) + 1 = 2 * i + 1 := by omega
      rw [hk (n + i), if_neg (by omega), if_pos (by omega), e]
  · intro hc hi
    refine loadedBuffer_congr fresh _ _ ?_ ?_ ?_ ?_ ?_
    · rfl
    · rfl
    · rfl
    · rfl
    apply List.ext_getElem?
    intro k
    rw [loadedBuffer_stereo_interleaved fresh sdd n hcount hc hi k,
      loadedBuffer_planar fresh _ rfl k]
    have e : (sdd.channelCount * sdd.sampleCount).toNat = 2 * n := by
      rw [hc, hcount]; omega
    simp only [e]
    by_cases h1 : k < n
    · rw [if_pos (by omega), if_pos h1, if_pos h1]
    · by_cases h2 : k < 2 * n
      · rw [if_pos h2, if_neg h1, if_neg h1, if_pos h2]
      · rw [if_neg h2, if_neg h1, if_neg h2]
  · intro hc
    refine loadedBuffer_congr fresh _ _ ?_ ?_ ?_ ?_ ?_
    · rfl
    · rfl
    · rfl
    · rfl
    apply List.ext_getElem?
    intro k
    rw [loadedBuffer_mono_interleaved fresh { sdd with isInterleaved := true } n hcount hc rfl k,
      loadedBuffer_planar fresh { sdd with isInterleaved := false } rfl k]
    have e : (sdd.channelCount * sdd.sampleCount).toNat = n := by
      rw [hc, hcount]; omega
    simp only [e]

/-- Witness of C20: two interleaved stereo frames 0, 1, 2, 3 are stored as 0, 2, 1, 3. -/
theorem loadSampleData_stores_planar_witness :
    stereoDescriptor.sampleCount = ((2 : Nat) : Int) ∧ stereoDescriptor.channelCount = 2
      ∧ stereoDescriptor.isInterleaved = true
      ∧ (loadedBuffer (wholeSample 2) stereoDescriptor).samples.length = 2 * 2
      ∧ (loadedBuffer (wholeSample 2) stereoDescriptor).samples[1]? = some (2 : ℚ)
      ∧ (loadedBuffer (wholeSample 2) stereoDescriptor).samples[2 + 1]? = some (3 : ℚ) := by
  have h := (loadSampleData_stores_planar (wholeSample 2) emptySampler stereoDescriptor 2
    rfl).2.1 rfl rfl
  refine ⟨rfl, rfl, rfl, h.1, ?_, ?_⟩
  · rw [(h.2 1 (by decide)).1]
    simp [stereoDescriptor]
  · rw [(h.2 1 (by decide)).2]
    simp [stereoDescriptor]

end CoreSampler

/-! ## Polyphonic voice assignment: auxiliary facts -/

namespace CoreSampler

/-- The polyphonic scan rewrites the first idle slot of its index range, if there is one. -/
theorem startFirstIdle_head {F : Type} (act : SamplerVoice F → SamplerVoice F)
    (remaining i : Nat) (voice : Nat → SamplerVoice F) :
    startFirstIdle act remaining i voice
      = match ((List.range' i remaining).filter
            (fun j => decide ((voice j).noteNumber < 0))).head? with
        | none => voice
        | some a => Function.update voice a (act (voice a)) := by
  induction remaining generalizing i with
  | zero => rfl
  | succ k ih =>
    rw [List.range'_succ, List.filter_cons]
    by_cases h : (voice i).noteNumber < 0
    · simp [startFirstIdle, h]
    · simp only [startFirstIdle, h, if_false, decide_False, Bool.false_eq_true]
      exact ih (i + 1)

/-- Once the first idle slot has been given a voice that is not idle, the idle slots are the
remaining ones. -/
theorem idle_after_update {F : Type} (voice : Nat → SamplerVoice F) (w : SamplerVoice F)
    (hw : 0 ≤ w.noteNumber) (l : List Nat) (hl : l.Nodup) (a : Nat) (rest : List Nat)
    (hidle : l.filter (fun j => decide ((voice j).noteNumber < 0)) = a :: rest) :
    l.filter (fun j => decide (((Function.update voice a w) j).noteNumber < 0)) = rest := by
  have hnd : (a :: rest).Nodup := hidle ▸ hl.filter _
  have harest : a ∉ rest := (List.nodup_cons.mp hnd).1
  have hcongr : l.filter (fun j => decide (((Function.update voice a w) j).noteNumber < 0))
      = l.filter (fun j => decide (j ≠ a) && decide ((voice j).noteNumber < 0)) := by
    apply List.filter_congr
    intro j _
    by_cases hj : j = a
    · subst hj
      simp [not_lt.mpr hw]
    · simp [hj, Function.update_noteq hj]
  rw [hcongr, ← List.filter_filter, hidle, List.filter_cons]
  simp only [ne_eq, not_true_eq_false, decide_False, Bool.false_eq_true, if_false]
  rw [List.filter_eq_self]
  intro j hj
  have : j ≠ a := fun h => harest (h ▸ hj)
  simpa using this

/-- The loop of polyphonic `play` over the matching regions: the regions are paired, in
order, with the idle slots in increasing order; each paired slot receives its region, no
other slot changes, and the idle slots left are those beyond the paired ones. -/
theorem assign_fold {F : Type} (trig : KeyMappedSampleBuffer F → SamplerVoice F → SamplerVoice F)
    (htrig : ∀ r v, 0 ≤ (trig r v).noteNumber) (samples : List (KeyMappedSampleBuffer F))
    (voice : Nat → SamplerVoice F) (idle : List Nat)
    (hidle : (List.range MAX_POLYPHONY).filter (fun j => decide ((voice j).noteNumber < 0))
      = idle) :
    (∀ p ∈ List.zip idle samples,
        (samples.foldl (fun voice pBuf => startFirstIdle (trig pBuf) MAX_POLYPHONY 0 voice)
          voice) p.1 = trig p.2 (voice p.1))
    ∧ (∀ i, i ∉ idle.take samples.length →
        (samples.foldl (fun voice pBuf => startFirstIdle (trig pBuf) MAX_POLYPHONY 0 voice)
          voice) i = voice i)
    ∧ (List.range MAX_POLYPHONY).filter
        (fun j => decide
          (((samples.foldl (fun voice pBuf => startFirstIdle (trig pBuf) MAX_POLYPHONY 0 voice)
            voice) j).noteNumber < 0))
        = idle.drop samples.length := by
  induction samples generalizing voice idle with
  | nil =>
    refine ⟨?_, ?_, ?_⟩
    · intro p hp
      simp at hp
    · intro i _
      rfl
    · simpa using hidle
  | cons r rs ih =>
    have hstep := startFirstIdle_head (trig r) MAX_POLYPHONY 0 voice
    rw [← List.range_eq_range', hidle] at hstep
    simp only [List.foldl_cons]
    cases idle with
    | nil =>
      simp only [List.head?_nil] at hstep
      simp only [hstep]
      obtain ⟨_, h2, h3⟩ := ih voice [] hidle
      refine ⟨?_, ?_, ?_⟩
      · intro p hp
        simp at hp
      · intro i _
        exact h2 i (by simp)
      · simpa using h3
    | cons a rest =>
      simp only [List.head?_cons] at hstep
      simp only [hstep]
      have hnd : (a :: rest).Nodup := hidle ▸ (List.nodup_range _).filter _
      have harest : a ∉ rest := (List.nodup_cons.mp hnd).1
      have hidle' := idle_after_update voice (trig r (voice a)) (htrig r (voice a))
        (List.range MAX_POLYPHONY) (List.nodup_range _) a rest hidle
      obtain ⟨h1, h2, h3⟩ := ih (Function.update voice a (trig r (voice a))) rest hidle'
      refine ⟨?_, ?_, ?_⟩
      · intro p hp
        rw [List.zip_cons_cons, List.mem_cons] at hp
        rcases hp with rfl | hp
        · rw [h2 a (fun h => harest (List.mem_of_mem_take h))]
          simp
        · have hp1 : p.1 ∈ rest := (List.of_mem_zip hp).1
          have hne : p.1 ≠ a := fun h => harest (h ▸ hp1)
          rw [h1 p hp, Function.update_noteq hne]
      · intro i hi
        rw [List.length_cons, List.take_succ_cons, List.mem_cons, not_or] at hi
        rw [h2 i hi.2, Function.update_noteq hi.1]
      · rw [h3]
        rfl

end CoreSampler

/-! ## Claims on polyphonic voice assignment -/

namespace CoreSampler

/-- C17: in polyphonic mode with the gate clear, a note-on for a note number below `2^31`
pairs the matching regions, in list order, with the idle slots, in increasing index order:
the `j`-th region is started (`start`, then that region's gain and pan) on the `j`-th idle
slot, for `min(k, m)` pairs when `k` regions match and `m` slots are idle; the idle slots are
distinct, so no two regions share a slot; every slot outside the first `k` idle slots, in
particular every occupied slot, is unchanged; the slots idle afterwards are the idle slots
beyond the first `k`; and the regions beyond the `m`-th start no voice. -/
theorem play_polyphonic_assignment {F : Type} [LinearOrderedField F] (powf : F → F → F)
    (s : CoreSampler F) (n v : Nat) (a : Bool) (hpoly : s.isMonophonic = false)
    (hgate : s.stoppingAllVoices = false) (hn : n < 2 ^ 31) :
    (∀ p ∈ List.zip (idleSlots s) (lookupSamples s n v),
        (play powf s n v a).voice p.1
          = (((s.voice p.1).start n s.currentSampleRate
                (s.tuningTable n * powf 2 ((p.2.noteDetune : F) / 1200))
                ((v : F) / 127) p.2).setGain p.2.gain).setPan p.2.pan)
    ∧ (List.zip (idleSlots s) (lookupSamples s n v)).length
        = min (lookupSamples s n v).length (idleSlots s).length
    ∧ List.Pairwise (fun i j => i < j) (idleSlots s)
    ∧ (∀ i, i ∈ idleSlots s ↔ (i < MAX_POLYPHONY ∧ (s.voice i).noteNumber < 0))
    ∧ (∀ i, i ∉ (idleSlots s).take (lookupSamples s n v).length →
        (play powf s n v a).voice i = s.voice i)
    ∧ (∀ i, 0 ≤ (s.voice i).noteNumber → (play powf s n v a).voice i = s.voice i)
    ∧ idleSlots (play powf s n v a) = (idleSlots s).drop (lookupSamples s n v).length
    ∧ (idleSlots (play powf s n v a)).length
        = (idleSlots s).length - min (lookupSamples s n v).length (idleSlots s).length := by
  have htrig : ∀ (r : KeyMappedSampleBuffer F) (w : SamplerVoice F),
      0 ≤ (triggerVoice powf s false n v r w).noteNumber := by
    intro r w
    simp [triggerVoice, SamplerVoice.setPan, SamplerVoice.setGain, SamplerVoice.start,
      castInt_of_lt n hn]
  obtain ⟨h1, h2, h3⟩ := assign_fold (fun r => triggerVoice powf s false n v r) htrig
    (lookupSamples s n v) s.voice (idleSlots s) rfl
  have hvoice : (play powf s n v a).voice
      = (lookupSamples s n v).foldl
          (fun voice pBuf =>
            startFirstIdle (triggerVoice powf s false n v pBuf) MAX_POLYPHONY 0 voice)
          s.voice := by
    simp only [play, hgate, hpoly, Bool.false_eq_true, if_false]
  have hmem : ∀ i, i ∈ idleSlots s ↔ (i < MAX_POLYPHONY ∧ (s.voice i).noteNumber < 0) := by
    intro i
    simp [idleSlots, List.mem_filter]
  have hdrop : idleSlots (play powf s n v a)
      = (idleSlots s).drop (lookupSamples s n v).length := by
    simp only [idleSlots, hvoice]
    exact h3
  refine ⟨?_, ?_, ?_, hmem, ?_, ?_, hdrop, ?_⟩
  · intro p hp
    rw [hvoice, h1 p hp]
    simp [triggerVoice]
  · rw [List.length_zip, Nat.min_comm]
  · exact (List.pairwise_lt_range MAX_POLYPHONY).filter _
  · intro i hi
    rw [hvoice]
    exact h2 i hi
  · intro i hi
    rw [hvoice]
    apply h2 i
    intro hmem'
    have := ((hmem i).mp (List.mem_of_mem_take hmem')).2
    omega
  · rw [hdrop, List.length_drop]
    omega

/-- Witness of C17: the polyphonic sampler with 64 idle voices, note-on 60; one region is
matched, so the idle slots afterwards are the idle slots without the first. -/
theorem play_polyphonic_assignment_witness :
    mappedSampler.isMonophonic = false ∧ mappedSampler.stoppingAllVoices = false
      ∧ 60 < 2 ^ 31
      ∧ idleSlots (play octavePow mappedSampler 60 100 false)
          = (idleSlots mappedSampler).drop (lookupSamples mappedSampler 60 100).length :=
  ⟨rfl, rfl, by decide,
    (play_polyphonic_assignment octavePow mappedSampler 60 100 false rfl rfl
      (by decide)).2.2.2.2.2.2.1⟩

end CoreSampler

/-! ## Rendering under the stop-all gate -/

namespace CoreSampler

/-- The preparation and the mixing of a voice add no `stop` and no `release` to its history
and keep its note. -/
theorem prep_getSamples_keeps {F : Type} (v : SamplerVoice F) (n : Nat) :
    ((v.prepToGetSamples n).getSamples n).stopReleaseCount = v.stopReleaseCount
      ∧ ((v.prepToGetSamples n).getSamples n).noteNumber = v.noteNumber := by
  simp [SamplerVoice.prepToGetSamples, SamplerVoice.getSamples, SamplerVoice.stopReleaseCount,
    List.filter_append]

/-- One step of the voice loop when no voice has been released or stopped and the engine
reports such voices as not finished: no voice is released or stopped, and every voice keeps
its note. -/
theorem renderVoice_held {F : Type} [LinearOrderedField F] (engine : VoiceEngine F)
    (hengine : ∀ v : SamplerVoice F, v.stopReleaseCount = 0 → engine.finished v = false)
    (sampleCount : Nat) (st : RenderPass F) (i : Nat)
    (hst : ∀ j, (st.sampler.voice j).stopReleaseCount = 0) (j : Nat) :
    ((renderVoice engine sampleCount st i).sampler.voice j).stopReleaseCount = 0
      ∧ ((renderVoice engine sampleCount st i).sampler.voice j).noteNumber
          = (st.sampler.voice j).noteNumber := by
  simp only [renderVoice]
  split
  · rw [hengine _ (hst i)]
    simp only [Bool.false_eq_true, if_false, Function.update_same]
    by_cases hj : j = i
    · subst hj
      simp only [Function.update_same]
      exact ⟨(prep_getSamples_keeps _ _).1.trans (hst j), (prep_getSamples_keeps _ _).2⟩
    · simp only [Function.update_noteq hj]
      refine ⟨hst j, ?_⟩
      trivial
  · exact ⟨hst j, rfl⟩

/-- A render pass when no voice has been released or stopped and the engine reports such
voices as not finished: whatever the gate, no voice is released or stopped and every voice
keeps its note. -/
theorem render_held {F : Type} [LinearOrderedField F] (powf : F → F → F)
    (engine : VoiceEngine F)
    (hengine : ∀ v : SamplerVoice F, v.stopReleaseCount = 0 → engine.finished v = false)
    (s : CoreSampler F) (channelCount sampleCount : Nat) (outLeft outRight : Nat → F)
    (hs : ∀ j, (s.voice j).stopReleaseCount = 0) (j : Nat) :
    ((render powf engine s channelCount sampleCount outLeft outRight).sampler.voice
        j).stopReleaseCount = 0
      ∧ ((render powf engine s channelCount sampleCount outLeft outRight).sampler.voice
          j).noteNumber = (s.voice j).noteNumber := by
  have h : ∀ (l : List Nat) (st : RenderPass F),
      (∀ j, (st.sampler.voice j).stopReleaseCount = 0) →
      ∀ j, ((l.foldl (renderVoice engine sampleCount) st).sampler.voice j).stopReleaseCount = 0
        ∧ ((l.foldl (renderVoice engine sampleCount) st).sampler.voice j).noteNumber
            = (st.sampler.voice j).noteNumber := by
    intro l
    induction l with
    | nil => intro st hst j; exact ⟨hst j, rfl⟩
    | cons i t ih =>
      intro st hst j
      have hstep := renderVoice_held engine hengine sampleCount st i hst
      obtain ⟨h1, h2⟩ := ih (renderVoice engine sampleCount st i) (fun k => (hstep k).1) j
      exact ⟨h1, h2.trans (hstep j).2⟩
  simp only [render]
  unfold renderVoices
  exact h (List.range MAX_POLYPHONY) _ hs j

/-- Any number of render passes when no voice has been released or stopped and the engine
reports such voices as not finished: every voice keeps its note, and the gate is as it
was. -/
theorem renderPasses_held {F : Type} [LinearOrderedField F] (powf : F → F → F)
    (engine : VoiceEngine F)
    (hengine : ∀ v : SamplerVoice F, v.stopReleaseCount = 0 → engine.finished v = false)
    (sampleCount passes : Nat) (s : CoreSampler F)
    (hs : ∀ j, (s.voice j).stopReleaseCount = 0) :
    (∀ j, ((renderPasses powf engine sampleCount passes s).voice j).noteNumber
        = (s.voice j).noteNumber)
      ∧ (renderPasses powf engine sampleCount passes s).stoppingAllVoices
          = s.stoppingAllVoices := by
  induction passes generalizing s with
  | zero => exact ⟨fun _ => rfl, rfl⟩
  | succ k ih =>
    have hr := render_held powf engine hengine s 2 sampleCount (fun _ => 0) (fun _ => 0) hs
    obtain ⟨h1, h2⟩ := ih (render powf engine s 2 sampleCount (fun _ => 0) (fun _ => 0)).sampler
      (fun j => (hr j).1)
    have hgate : (render powf engine s 2 sampleCount (fun _ => 0) (fun _ => 0)).sampler.stoppingAllVoices
        = s.stoppingAllVoices := by
      simp only [render]
      exact (renderVoices_settings engine s sampleCount (fun _ => 0) (fun _ => 0)).2.2.1
    simp only [renderPasses]
    exact ⟨fun j => (h1 j).trans (hr j).2, h2.trans hgate⟩

/-- The preparation of a voice adds no `stop` and no `release` to its history and keeps its
note. -/
theorem prep_keeps {F : Type} (v : SamplerVoice F) (n : Nat) :
    (v.prepToGetSamples n).stopReleaseCount = v.stopReleaseCount
      ∧ (v.prepToGetSamples n).noteNumber = v.noteNumber := by
  simp [SamplerVoice.prepToGetSamples, SamplerVoice.stopReleaseCount, List.filter_append]

/-- One step of the voice loop in monophonic mode: a voice in a slot other than slot 0 keeps
its note and receives neither `stop` nor `release`. -/
theorem renderVoice_monophonic_upper {F : Type} [LinearOrderedField F] (engine : VoiceEngine F)
    (sampleCount : Nat) (st : RenderPass F) (i : Nat) (hmono : st.sampler.isMonophonic = true)
    (j : Nat) (hj : j ≠ 0) :
    ((renderVoice engine sampleCount st i).sampler.voice j).noteNumber
        = (st.sampler.voice j).noteNumber
      ∧ ((renderVoice engine sampleCount st i).sampler.voice j).stopReleaseCount
          = (st.sampler.voice j).stopReleaseCount := by
  simp only [renderVoice]
  split
  · split
    · simp only [stopNote, if_true]
      rw [stop_voice]
      have hscan : scansSlot
          ({ st.sampler with
              voice := Function.update st.sampler.voice i
                ((st.sampler.voice i).prepToGetSamples sampleCount) } : CoreSampler F) j
          = false := by
        simp [scansSlot, hmono, hj]
      rw [hscan]
      simp only [Bool.false_eq_true, false_and, if_false]
      by_cases hji : j = i
      · subst hji
        simp only [Function.update_same]
        exact ⟨(prep_keeps _ _).2, (prep_keeps _ _).1⟩
      · simp only [Function.update_noteq hji]
        refine ⟨?_, ?_⟩ <;> trivial
    · simp only [Function.update_same]
      by_cases hji : j = i
      · subst hji
        simp only [Function.update_same]
        exact ⟨(prep_getSamples_keeps _ _).2, (prep_getSamples_keeps _ _).1⟩
      · simp only [Function.update_noteq hji]
        refine ⟨?_, ?_⟩ <;> trivial
  · exact ⟨rfl, rfl⟩

/-- A render pass in monophonic mode: a voice in a slot other than slot 0 keeps its note and
receives neither `stop` nor `release`, whatever its preparation reports. -/
theorem render_monophonic_upper {F : Type} [LinearOrderedField F] (powf : F → F → F)
    (engine : VoiceEngine F) (s : CoreSampler F) (channelCount sampleCount : Nat)
    (outLeft outRight : Nat → F) (hmono : s.isMonophonic = true) (j : Nat) (hj : j ≠ 0) :
    ((render powf engine s channelCount sampleCount outLeft outRight).sampler.voice j).noteNumber
        = (s.voice j).noteNumber
      ∧ ((render powf engine s channelCount sampleCount outLeft outRight).sampler.voice
          j).stopReleaseCount = (s.voice j).stopReleaseCount := by
  have h : ∀ (l : List Nat) (st : RenderPass F), st.sampler.isMonophonic = true →
      ((l.foldl (renderVoice engine sampleCount) st).sampler.voice j).noteNumber
          = (st.sampler.voice j).noteNumber
        ∧ ((l.foldl (renderVoice engine sampleCount) st).sampler.voice j).stopReleaseCount
            = (st.sampler.voice j).stopReleaseCount := by
    intro l
    induction l with
    | nil => intro st _; exact ⟨rfl, rfl⟩
    | cons i t ih =>
      intro st hst
      obtain ⟨g1, g2⟩ := renderVoice_monophonic_upper engine sampleCount st i hst j hj
      have hm : (renderVoice engine sampleCount st i).sampler.isMonophonic = true :=
        (renderVoice_settings engine sampleCount st i).2.2.2.trans hst
      obtain ⟨h1, h2⟩ := ih (renderVoice engine sampleCount st i) hm
      exact ⟨h1.trans g1, h2.trans g2⟩
  simp only [render]
  unfold renderVoices
  exact h (List.range MAX_POLYPHONY) _ hmono

set_option maxRecDepth 100000 in
/-- The example state with a decaying voice: slot 0 sounds note 64, slot 1 sounds note 60 and
has been released once, which the example engine reports as finished. -/
theorem decayingSlotSampler_slots :
    (decayingSlotSampler.voice 0).noteNumber = 64
      ∧ (decayingSlotSampler.voice 1).noteNumber = 60
      ∧ decayEngine.finished (decayingSlotSampler.voice 1) = true
      ∧ (decayingSlotSampler.voice 1).stopReleaseCount = 1 := by
  refine ⟨?_, ?_, ?_, ?_⟩ <;> decide

end CoreSampler

/-! ## Claims on the stop-all gate and on finished voices -/

namespace CoreSampler

/-- C11 at the failing input: note 60 is played and held, `stopAllVoices` sets the gate, and
the voice engine reports a voice finished only once it has been released or stopped.  After
any number of render passes the gate is still set and slot 0 still sounds note 60: `render`
does not consult the gate, and the wait loop of `stopAllVoices` never ends. -/
theorem render_ignores_stop_all_gate :
    heldNoteGatedSampler.stoppingAllVoices = true
      ∧ (heldNoteGatedSampler.voice 0).noteNumber = 60
      ∧ ∀ passes : Nat,
          (renderPasses octavePow decayEngine 512 passes heldNoteGatedSampler).stoppingAllVoices
              = true
            ∧ ((renderPasses octavePow decayEngine 512 passes heldNoteGatedSampler).voice
                0).noteNumber = 60
            ∧ noteStillSounding
                (renderPasses octavePow decayEngine 512 passes heldNoteGatedSampler) = true := by
  have hengine : ∀ v : SamplerVoice ℚ, v.stopReleaseCount = 0 → decayEngine.finished v = false := by
    intro v hv
    simp [decayEngine, hv]
  have hs : ∀ j, (heldNoteGatedSampler.voice j).stopReleaseCount = 0 := by
    intro j
    have h := play_stopReleaseCount octavePow
      ({ mappedSampler with pedalLogic := mappedSampler.pedalLogic.keyDownAction 60 } :
        CoreSampler ℚ) 60 100 mappedSampler.pedalLogic.isAnyKeyDown j
    exact h
  have h0 : (heldNoteGatedSampler.voice 0).noteNumber = 60 := by decide
  refine ⟨rfl, h0, fun passes => ?_⟩
  obtain ⟨h1, h2⟩ := renderPasses_held octavePow decayEngine hengine 512 passes
    heldNoteGatedSampler hs
  have hv : ((renderPasses octavePow decayEngine 512 passes heldNoteGatedSampler).voice
      0).noteNumber = 60 := (h1 0).trans h0
  refine ⟨h2, hv, ?_⟩
  simp only [noteStillSounding, List.any_eq_true, List.mem_range, decide_eq_true_eq]
  exact ⟨0, by decide, by rw [hv]; decide⟩

/-- C18 at the failing input: in monophonic mode slot 1 holds a voice sounding note 60 that
has been released, and its preparation reports finished.  After the render pass slot 1 still
sounds note 60 and has received no `stop` (its only `stop`/`release` call is the earlier
release): `stopNote(60, true)` examines slot 0 only, which sounds note 64. -/
theorem render_monophonic_keeps_finished_voice :
    decayingSlotSampler.isMonophonic = true
      ∧ (decayingSlotSampler.voice 0).noteNumber = 64
      ∧ (decayingSlotSampler.voice 1).noteNumber = 60
      ∧ decayEngine.finished (decayingSlotSampler.voice 1) = true
      ∧ (decayingSlotSampler.voice 1).stopReleaseCount = 1
      ∧ ((render octavePow decayEngine decayingSlotSampler 2 512 (fun _ => 0)
          (fun _ => 0)).sampler.voice 1).noteNumber = 60
      ∧ ((render octavePow decayEngine decayingSlotSampler 2 512 (fun _ => 0)
          (fun _ => 0)).sampler.voice 1).stopReleaseCount = 1 := by
  obtain ⟨h0, h1, hf, h2⟩ := decayingSlotSampler_slots
  obtain ⟨g1, g2⟩ := render_monophonic_upper octavePow decayEngine decayingSlotSampler 2 512
    (fun _ => 0) (fun _ => 0) rfl 1 (by decide)
  exact ⟨rfl, h0, h1, hf, h2, g1.trans h1, g2.trans h2⟩

end CoreSampler

/-! ## Single-sample lookup and rebuilding of the key map -/

namespace CoreSampler

/-- Entry `n` of the map built by `buildKeyMap`, for every index of the model. -/
theorem buildKeyMap_entry {F : Type} [LinearOrderedField F] (pow : F → F → F)
    (s : CoreSampler F) (n : Nat) :
    (buildKeyMap pow s).keyMap n
      = if n < MIDI_NOTENUMBERS then
          s.sampleBufferList.filter (fun r =>
            decide (NOTE_HZ pow r.minimumNoteNumber ≤ s.tuningTable n
              ∧ s.tuningTable n ≤ NOTE_HZ pow r.maximumNoteNumber))
        else s.keyMap n := by
  by_cases hn : n < MIDI_NOTENUMBERS
  · rw [if_pos hn]
    exact buildKeyMap_keyMap pow s n hn
  · have h := foldl_range_push_filter
      (fun nn (r : KeyMappedSampleBuffer F) =>
        s.tuningTable nn ≥ NOTE_HZ pow r.minimumNoteNumber
          ∧ s.tuningTable nn ≤ NOTE_HZ pow r.maximumNoteNumber)
      s.sampleBufferList MIDI_NOTENUMBERS (clearKeyMap s.keyMap) n
    simp only [buildKeyMap]
    rw [h, if_neg hn, if_neg hn, clearKeyMap_apply, if_neg hn]

/-- Entry `n` of the map built by `buildSimpleKeyMap`, for every index of the model. -/
theorem buildSimpleKeyMap_entry {F : Type} [LinearOrderedField F] (pow : F → F → F)
    (s : CoreSampler F) (n : Nat) :
    (buildSimpleKeyMap pow s).keyMap n
      = if n < MIDI_NOTENUMBERS then
          s.sampleBufferList.filter (fun r =>
            decide (pitchDistance pow r (s.tuningTable n)
              = scanMinDistance pow s.sampleBufferList (s.tuningTable n)))
        else s.keyMap n := by
  by_cases hn : n < MIDI_NOTENUMBERS
  · rw [if_pos hn]
    exact buildSimpleKeyMap_keyMap pow s n hn
  · have h := foldl_range_push_filter
      (fun nn (r : KeyMappedSampleBuffer F) =>
        pitchDistance pow r (s.tuningTable nn)
          = scanMinDistance pow s.sampleBufferList (s.tuningTable nn))
      s.sampleBufferList MIDI_NOTENUMBERS (clearKeyMap s.keyMap) n
    simp only [buildSimpleKeyMap]
    rw [h, if_neg hn, if_neg hn, clearKeyMap_apply, if_neg hn]

/-- The members that the builders do not write. -/
theorem buildKeyMap_frame {F : Type} [LinearOrderedField F] (pow : F → F → F)
    (s : CoreSampler F) :
    buildKeyMap pow s
        = { s with keyMap := (buildKeyMap pow s).keyMap, isKeyMapValid := true }
      ∧ buildSimpleKeyMap pow s
        = { s with keyMap := (buildSimpleKeyMap pow s).keyMap, isKeyMapValid := true } :=
  ⟨rfl, rfl⟩

end CoreSampler

/-! ## Claims on the single-sample lookup and on rebuilding the key map -/

namespace CoreSampler

/-- C22: the map that `buildKeyMap`, and likewise `buildSimpleKeyMap`, produces from two
states with the same repository and the same tuning table is the same at each of the 128
notes, whatever the two previous maps held, and it is marked valid; running a builder on its
own result changes nothing; and each entry is a sublist of the repository, so a region is
listed in an entry at most as often as it was loaded. -/
theorem buildKeyMap_ignores_previous_map {F : Type} [LinearOrderedField F] (pow : F → F → F)
    (s t : CoreSampler F) (hlist : s.sampleBufferList = t.sampleBufferList)
    (htuning : s.tuningTable = t.tuningTable) :
    (∀ n, n < MIDI_NOTENUMBERS → (buildKeyMap pow s).keyMap n = (buildKeyMap pow t).keyMap n)
      ∧ (∀ n, n < MIDI_NOTENUMBERS →
          (buildSimpleKeyMap pow s).keyMap n = (buildSimpleKeyMap pow t).keyMap n)
      ∧ (buildKeyMap pow s).isKeyMapValid = true
      ∧ (buildSimpleKeyMap pow s).isKeyMapValid = true
      ∧ buildKeyMap pow (buildKeyMap pow s) = buildKeyMap pow s
      ∧ buildSimpleKeyMap pow (buildSimpleKeyMap pow s) = buildSimpleKeyMap pow s
      ∧ (∀ n, n < MIDI_NOTENUMBERS →
          List.Sublist ((buildKeyMap pow s).keyMap n) s.sampleBufferList
            ∧ List.Sublist ((buildSimpleKeyMap pow s).keyMap n) s.sampleBufferList)
      ∧ (∀ n, n < MIDI_NOTENUMBERS → ∀ r : KeyMappedSampleBuffer F,
          ((buildKeyMap pow s).keyMap n).count r ≤ s.sampleBufferList.count r
            ∧ ((buildSimpleKeyMap pow s).keyMap n).count r ≤ s.sampleBufferList.count r) := by
  have hsub : ∀ n, n < MIDI_NOTENUMBERS →
      List.Sublist ((buildKeyMap pow s).keyMap n) s.sampleBufferList
        ∧ List.Sublist ((buildSimpleKeyMap pow s).keyMap n) s.sampleBufferList := by
    intro n hn
    rw [buildKeyMap_keyMap pow s n hn, buildSimpleKeyMap_keyMap pow s n hn]
    exact ⟨List.filter_sublist _, List.filter_sublist _⟩
  refine ⟨?_, ?_, rfl, rfl, ?_, ?_, hsub, ?_⟩
  · intro n hn
    rw [buildKeyMap_keyMap pow s n hn, buildKeyMap_keyMap pow t n hn, hlist, htuning]
  · intro n hn
    rw [buildSimpleKeyMap_keyMap pow s n hn, buildSimpleKeyMap_keyMap pow t n hn, hlist,
      htuning]
  · have hk : (buildKeyMap pow (buildKeyMap pow s)).keyMap = (buildKeyMap pow s).keyMap := by
      funext n
      rw [buildKeyMap_entry pow (buildKeyMap pow s) n, buildKeyMap_entry pow s n]
      by_cases hn : n < MIDI_NOTENUMBERS
      · rw [if_pos hn, if_pos hn]
        rfl
      · rw [if_neg hn, if_neg hn]
    rw [(buildKeyMap_frame pow (buildKeyMap pow s)).1, hk]
    rfl
  · have hk : (buildSimpleKeyMap pow (buildSimpleKeyMap pow s)).keyMap
        = (buildSimpleKeyMap pow s).keyMap := by
      funext n
      rw [buildSimpleKeyMap_entry pow (buildSimpleKeyMap pow s) n,
        buildSimpleKeyMap_entry pow s n]
      by_cases hn : n < MIDI_NOTENUMBERS
      · rw [if_pos hn, if_pos hn]
        rfl
      · rw [if_neg hn, if_neg hn]
    rw [(buildKeyMap_frame pow (buildSimpleKeyMap pow s)).2, hk]
    rfl
  · intro n hn r
    exact ⟨(hsub n hn).1.count_le r, (hsub n hn).2.count_le r⟩

/-- Witness of C22: `oneRegionSampler` and the same sampler with a stale key map that lists
the region twice at every note. -/
theorem buildKeyMap_ignores_previous_map_witness :
    staleMapSampler.sampleBufferList = oneRegionSampler.sampleBufferList
      ∧ staleMapSampler.tuningTable = oneRegionSampler.tuningTable
      ∧ staleMapSampler.keyMap 69 = [regionA4, regionA4]
      ∧ (buildKeyMap octavePow staleMapSampler).keyMap 69
          = (buildKeyMap octavePow oneRegionSampler).keyMap 69
      ∧ (buildSimpleKeyMap octavePow staleMapSampler).keyMap 69
          = (buildSimpleKeyMap octavePow oneRegionSampler).keyMap 69 :=
  ⟨rfl, rfl, rfl,
    (buildKeyMap_ignores_previous_map octavePow staleMapSampler oneRegionSampler rfl rfl).1 69
      (by decide),
    (buildKeyMap_ignores_previous_map octavePow staleMapSampler oneRegionSampler rfl
      rfl).2.1 69 (by decide)⟩

end CoreSampler
